import Mathlib

/-!
# IdCardAutoCapture: alignment / glare detection and capture pipeline

A shallow embedding of `src/pages/IdCardAutoCapture/index.jsx`.

Conventions of the embedding.

* JavaScript numbers are modelled by exact rationals (`ℚ`) or, where the source
  only ever produces integers, by `Int`/`Nat`.  Rounding of IEEE doubles is not
  modelled.
* An `ImageData` is a width, a height and the flat RGBA byte list `data`
  (`Uint8ClampedArray`), four entries per pixel, row major.
* Reads outside a list yield `0`; writes outside a typed array are ignored,
  which is what `List.set` does.
* A `for` loop with a positive stride is unrolled into the list of the values
  its counter takes.
-/

namespace IdCardAutoCapture

/-! ## JavaScript numeric helpers -/

/-- `Math.round`: nearest integer, halves go up. -/
def jsRound (q : ℚ) : Int := ⌊q + 1 / 2⌋

/-- `Math.floor`. -/
def jsFloor (q : ℚ) : Int := ⌊q⌋

/-- Conversion of a number to a `Uint8ClampedArray` element: clamp to `0..255`
and round to the nearest integer, halves to the even neighbour. -/
def toUint8Clamped (q : ℚ) : Nat :=
  if q ≤ 0 then 0
  else if 255 ≤ q then 255
  else
    let f : Int := ⌊q⌋
    let frac : ℚ := q - f
    if frac < 1 / 2 then f.toNat
    else if 1 / 2 < frac then (f + 1).toNat
    else if f % 2 = 0 then f.toNat else (f + 1).toNat

/-- `x | 0`: the 32-bit signed integer of an integral number. -/
def toInt32 (x : Int) : Int := (x + 2 ^ 31) % 2 ^ 32 - 2 ^ 31

/-! ## Pixel buffers -/

/-- `ImageData`: `data` holds `4 * width * height` bytes, RGBA per pixel. -/
structure ImageData where
  width : Nat
  height : Nat
  data : List Nat
deriving DecidableEq, Repr

/-- What the canvas API guarantees of an `ImageData`: the buffer has four bytes
per pixel and every entry is a byte. -/
def ImageData.WF (img : ImageData) : Prop :=
  img.data.length = 4 * img.width * img.height ∧ ∀ v ∈ img.data, v ≤ 255

instance (img : ImageData) : Decidable img.WF := by
  unfold ImageData.WF; exact inferInstance

/-- Byte offset of pixel `(x, y)` in an image of width `w`:
`idx = (x, y) => (y * w + x) * 4`. -/
def idx (w x y : Nat) : Nat := (y * w + x) * 4

/-! ## Post-process: auto-levels -/

/-- The values of `i` in `for (let i = 0; i < d.length; i += 4)`. -/
def pixelOffsets (d : List Nat) : List Nat :=
  (List.range ((d.length + 3) / 4)).map (fun k => 4 * k)

/-- `hist[v]++`. -/
def bump (hist : List Nat) (v : Nat) : List Nat :=
  hist.set v (hist.getD v 0 + 1)

/-- The three 256-bin histograms `(histR, histG, histB)` built by the first loop
of `autoLevels`. -/
def histograms (d : List Nat) : List Nat × List Nat × List Nat :=
  (pixelOffsets d).foldl
    (fun hs i =>
      (bump hs.1 (d.getD i 0), bump hs.2.1 (d.getD (i + 1) 0), bump hs.2.2 (d.getD (i + 2) 0)))
    (List.replicate 256 0, List.replicate 256 0, List.replicate 256 0)

/-- `while (acc < clipCnt && lo < 255) { acc += hist[lo++]; }`, the result is the
final `lo`.  The first argument bounds the number of iterations; the loop runs at
most `255 - lo` times. -/
def loScan (hist : List Nat) (clipCnt : Int) : Nat → Nat → Int → Nat
  | 0, lo, _ => lo
  | fuel + 1, lo, acc =>
    if acc < clipCnt ∧ lo < 255 then
      loScan hist clipCnt fuel (lo + 1) (acc + (hist.getD lo 0 : Nat))
    else lo

/-- `while (acc < clipCnt && hi > 0) { acc += hist[hi--]; }`, the result is the
final `hi`.  The loop runs at most `hi` times. -/
def hiScan (hist : List Nat) (clipCnt : Int) : Nat → Nat → Int → Nat
  | 0, hi, _ => hi
  | fuel + 1, hi, acc =>
    if acc < clipCnt ∧ 0 < hi then
      hiScan hist clipCnt fuel (hi - 1) (acc + (hist.getD hi 0 : Nat))
    else hi

/-- `loHi(hist)`: the pair `[lo, hi]`. -/
def loHi (hist : List Nat) (clipCnt : Int) : Nat × Nat :=
  (loScan hist clipCnt 255 0 0, hiScan hist clipCnt 255 255 0)

/-- `stretch(v, lo, hi)`. -/
def stretch (v lo hi : Nat) : Int :=
  if hi ≤ lo then (v : Int)
  else max 0 (min 255 (jsRound (((v : ℚ) - (lo : ℚ)) * 255 / ((hi : ℚ) - (lo : ℚ)))))

/-- Storing an integral number into a `Uint8ClampedArray`. -/
def storeByte (z : Int) : Nat := (max 0 (min 255 z)).toNat

/-- One iteration of the second loop of `autoLevels`: the three colour bytes of
the pixel at offset `i` are stretched in place, the alpha byte is not touched. -/
def levelPixel (bR bG bB : Nat × Nat) (d : List Nat) (i : Nat) : List Nat :=
  ((d.set i (storeByte (stretch (d.getD i 0) bR.1 bR.2))).set (i + 1)
      (storeByte (stretch (d.getD (i + 1) 0) bG.1 bG.2))).set (i + 2)
      (storeByte (stretch (d.getD (i + 2) 0) bB.1 bB.2))

/-- `clipCnt = Math.floor(w * h * clip)`. -/
def clipCount (img : ImageData) (clip : ℚ) : Int :=
  jsFloor ((img.width : ℚ) * (img.height : ℚ) * clip)

/-- The bounds `([loR, hiR], [loG, hiG], [loB, hiB])` chosen by `autoLevels`. -/
def levelBounds (img : ImageData) (clip : ℚ) : (Nat × Nat) × (Nat × Nat) × (Nat × Nat) :=
  let hs := histograms img.data
  (loHi hs.1 (clipCount img clip), loHi hs.2.1 (clipCount img clip),
    loHi hs.2.2 (clipCount img clip))

/-- `autoLevels(ctx, w, h, clip)` on the pixels of the canvas; the result is the
image put back with `putImageData`. -/
def autoLevels (img : ImageData) (clip : ℚ) : ImageData :=
  let b := levelBounds img clip
  { img with data := (pixelOffsets img.data).foldl (levelPixel b.1 b.2.1 b.2.2) img.data }

/-- The bounds `(lo, hi)` chosen by `autoLevels` for channel `c`
(`0` red, `1` green, otherwise blue). -/
def channelBounds (img : ImageData) (clip : ℚ) (c : Nat) : Nat × Nat :=
  if c = 0 then (levelBounds img clip).1
  else if c = 1 then (levelBounds img clip).2.1
  else (levelBounds img clip).2.2

/-- The values of colour channel `c` (`0` red, `1` green, `2` blue) over the
pixels of an image, in row-major order. -/
def channelValues (img : ImageData) (c : Nat) : List Nat :=
  (List.range (img.width * img.height)).map (fun p => img.data.getD (4 * p + c) 0)

/-- The number of pixels whose value is strictly below the level `l`. -/
def countBelow (vals : List Nat) (l : Nat) : Nat :=
  vals.countP (fun v => decide (v < l))

/-- The number of pixels whose value is strictly above the level `h`. -/
def countAbove (vals : List Nat) (h : Nat) : Nat :=
  vals.countP (fun v => decide (h < v))

/-! ## Post-process: sharpen -/

/-- The 3×3 kernel `k` of `applySharpen`, row major. -/
def kernel (a : ℚ) : List ℚ := [0, -a, 0, -a, 1 + 4 * a, -a, 0, -a, 0]

/-- The accumulated sum of channel `c` over the 3×3 neighbourhood of `(x, y)`:
`p` runs through the kernel in the order of the two inner loops
(`ky = -1..1` outer, `kx = -1..1` inner). -/
def convolve (S : List Nat) (w : Nat) (k : List ℚ) (x y c : Nat) : ℚ :=
  (List.range 9).foldl
    (fun acc p => acc + (S.getD (idx w (x + p % 3 - 1) (y + p / 3 - 1) + c) 0 : ℚ) * k.getD p 0)
    0

/-- The body of the two outer loops of `applySharpen` at `(x, y)`. -/
def sharpenPixel (S : List Nat) (w : Nat) (k : List ℚ) (D : List Nat) (x y : Nat) : List Nat :=
  let di := idx w x y
  (((D.set di (toUint8Clamped (max 0 (min 255 (convolve S w k x y 0))))).set (di + 1)
      (toUint8Clamped (max 0 (min 255 (convolve S w k x y 1))))).set (di + 2)
      (toUint8Clamped (max 0 (min 255 (convolve S w k x y 2))))).set (di + 3)
      (S.getD (di + 3) 0)

/-- `applySharpen(ctx, w, h, amt)`: `src` is the image read from the canvas, the
result is the image `dst` written back by `putImageData(dst, 0, 0)`.  `dst` is
created by `createImageData`, so it starts as transparent black. -/
def applySharpen (src : ImageData) (amt : ℚ) : ImageData :=
  let w := src.width
  let h := src.height
  let a : ℚ := max 0 (min 1 amt)
  let k := kernel a
  let D0 : List Nat := List.replicate (4 * w * h) 0
  { width := w
    height := h
    data :=
      (List.range' 1 (h - 2)).foldl
        (fun D y => (List.range' 1 (w - 2)).foldl (fun D x => sharpenPixel src.data w k D x y) D)
        D0 }

/-! ## Captured crop expansion -/

/-- A rectangle `{left, top, width, height}`; `right` and `bottom` are derived
as in a `DOMRect`. -/
structure Rect where
  left : ℚ
  top : ℚ
  width : ℚ
  height : ℚ
deriving DecidableEq

/-- `DOMRect.right`. -/
def Rect.right (r : Rect) : ℚ := r.left + r.width

/-- `DOMRect.bottom`. -/
def Rect.bottom (r : Rect) : ℚ := r.top + r.height

def CROP_PAD_X_PCT : ℚ := 5 / 100
def CROP_PAD_Y_PCT : ℚ := 12 / 100
def CROP_MIN_PAD_PX : ℚ := 6

/-- `expandRectWithin(fRect, boundsRect)`, in exact arithmetic: the products,
sums and differences of the source are IEEE doubles and are rounded, here they
are not.  `Math.max` and `Math.min` return one of their arguments and are
exact. -/
def expandRectWithin (fRect boundsRect : Rect) : Rect :=
  let padX := max CROP_MIN_PAD_PX (fRect.width * CROP_PAD_X_PCT)
  let padY := max CROP_MIN_PAD_PX (fRect.height * CROP_PAD_Y_PCT)
  let left := max boundsRect.left (fRect.left - padX)
  let top := max boundsRect.top (fRect.top - padY)
  let right := min boundsRect.right (fRect.right + padX)
  let bottom := min boundsRect.bottom (fRect.bottom + padY)
  { left := left
    top := top
    width := max 1 (right - left)
    height := max 1 (bottom - top) }

/-! ## High-resolution crop -/

/-- The placement `(dw, dh, dx, dy)` of the video in its element under
`object-fit: cover`, as computed by `captureCroppedHiRes` (and by
`drawVideoToWorkCanvas`): `vw × vh` is the intrinsic size of the video,
`cw × ch` the size of the element. -/
def coverFit (vw vh : Nat) (cw ch : ℚ) : ℚ × ℚ × ℚ × ℚ :=
  let vRatio : ℚ := (vw : ℚ) / (vh : ℚ)
  let cRatio : ℚ := cw / ch
  if cRatio < vRatio then
    let dh := ch
    let dw := dh * vRatio
    (dw, dh, (cw - dw) / 2, 0)
  else
    let dw := cw
    let dh := dw / vRatio
    (dw, dh, 0, (ch - dh) / 2)

/-- The crop `(srcX_v, srcY_v, srcW_v, srcH_v)` of the expanded guide frame in
video pixels, as computed by `captureCroppedHiRes`. -/
def videoCrop (vw vh : Nat) (vRect fRect : Rect) : Int × Int × Int × Int :=
  let eRect := expandRectWithin fRect vRect
  let fit := coverFit vw vh vRect.width vRect.height
  let dw := fit.1
  let dh := fit.2.1
  let dx := fit.2.2.1
  let dy := fit.2.2.2
  let srcX_v : Int := max 0 (jsRound ((eRect.left - vRect.left - dx) * ((vw : ℚ) / dw)))
  let srcY_v : Int := max 0 (jsRound ((eRect.top - vRect.top - dy) * ((vh : ℚ) / dh)))
  let srcW_v : Int := min ((vw : Int) - srcX_v) (jsRound (eRect.width * ((vw : ℚ) / dw)))
  let srcH_v : Int := min ((vh : Int) - srcY_v) (jsRound (eRect.height * ((vh : ℚ) / dh)))
  (srcX_v, srcY_v, srcW_v, srcH_v)

/-- The crop `(sx, sy, sw, sh)` in the pixels of the still `bitmap`
(`bw × bh`), as computed by `captureCroppedHiRes`: the video crop rescaled by
`bitmap.width / vw` and `bitmap.height / vh`, then clamped to the bitmap. -/
def sensorCrop (vw vh : Nat) (vRect fRect : Rect) (bw bh : Nat) : Int × Int × Int × Int :=
  let v := videoCrop vw vh vRect fRect
  let scaleX : ℚ := (bw : ℚ) / (vw : ℚ)
  let scaleY : ℚ := (bh : ℚ) / (vh : ℚ)
  let sx0 : Int := jsRound ((v.1 : ℚ) * scaleX)
  let sy0 : Int := jsRound ((v.2.1 : ℚ) * scaleY)
  let sw0 : Int := jsRound ((v.2.2.1 : ℚ) * scaleX)
  let sh0 : Int := jsRound ((v.2.2.2 : ℚ) * scaleY)
  let sx : Int := max 0 (min sx0 ((bw : Int) - 1))
  let sy : Int := max 0 (min sy0 ((bh : Int) - 1))
  let sw : Int := max 1 (min sw0 ((bw : Int) - sx))
  let sh : Int := max 1 (min sh0 ((bh : Int) - sy))
  (sx, sy, sw, sh)

/-! ## Edge / glare parameters -/

def EDGE_DIFF : Nat := 30
def SIDE_COVER_MIN : ℚ := 6 / 10
def MIN_ROI_PX : Int := 140
def STABLE_NEED : Nat := 2
def TOL_PCT : ℚ := 5 / 100

def GLARE_Y : ℚ := 250
def GLARE_SAT_DELTA : Nat := 18
def GLARE_MAX_RATIO : ℚ := 2 / 100
def GLARE_WARN_RATIO : ℚ := 1 / 100

/-! ## Loops with a stride -/

/-- Number of iterations of `for (v = start; v < start + len; v += step)` for a
positive `step`: the least `n` with `len ≤ n * step`. -/
def strideCount (len step : Int) : Nat :=
  if len ≤ 0 then 0 else ((len + step - 1) / step).toNat

/-- The values taken by `v` in `for (v = start; v < start + len; v += step)`. -/
def strideValues (start len step : Int) : List Int :=
  (List.range (strideCount len step)).map (fun (k : Nat) => start + (k : Int) * step)

/-! ## Edge and glare helpers -/

/-- `getRGB(imageData, w, x, y)`: the coordinates are truncated to 32-bit
integers and clamped into the image. -/
def getRGB (img : ImageData) (w : Int) (x y : Int) : Nat × Nat × Nat :=
  let xi := max 0 (min (w - 1) (toInt32 x))
  let yi := max 0 (min ((img.height : Int) - 1) (toInt32 y))
  let i := ((yi * w + xi) * 4).toNat
  (img.data.getD i 0, img.data.getD (i + 1) 0, img.data.getD (i + 2) 0)

/-- `diffRGB(a, b)`: summed absolute channel difference. -/
def diffRGB (a b : Nat × Nat × Nat) : Nat :=
  ((a.1 : Int) - b.1).natAbs + ((a.2.1 : Int) - b.2.1).natAbs + ((a.2.2 : Int) - b.2.2).natAbs

/-- The luma `Y = 0.2126 * r + 0.7152 * g + 0.0722 * b` of a sample. -/
def luma (p : Nat × Nat × Nat) : ℚ :=
  2126 / 10000 * (p.1 : ℚ) + 7152 / 10000 * (p.2.1 : ℚ) + 722 / 10000 * (p.2.2 : ℚ)

/-- The channel spread `delta = maxc - minc` of a sample. -/
def spread (p : Nat × Nat × Nat) : Nat :=
  max (max p.1 p.2.1) p.2.2 - min (min p.1 p.2.1) p.2.2

/-- The test `Y >= GLARE_Y && delta <= GLARE_SAT_DELTA` of `estimateGlare`. -/
def isHot (p : Nat × Nat × Nat) : Bool :=
  decide (GLARE_Y ≤ luma p) && decide (spread p ≤ GLARE_SAT_DELTA)

/-- The result `{ ratio, hot, tot }` of `estimateGlare`. -/
structure GlareResult where
  ratio : ℚ
  hot : Nat
  tot : Nat
deriving DecidableEq

/-- The counters `(hot, tot)` after the two loops of `estimateGlare`. -/
def glareCounts (img : ImageData) (W x y w h stepX stepY : Int) : Nat × Nat :=
  (strideValues y h stepY).foldl
    (fun acc yy =>
      (strideValues x w stepX).foldl
        (fun acc xx =>
          (if isHot (getRGB img W xx yy) then acc.1 + 1 else acc.1, acc.2 + 1))
        acc)
    (0, 0)

/-- `estimateGlare(imageData, W, H, x, y, w, h, stepX, stepY)`; `H` is not used
by the source. -/
def estimateGlare (img : ImageData) (W _H x y w h stepX stepY : Int) : GlareResult :=
  let c := glareCounts img W x y w h stepX stepY
  { ratio := if c.2 = 0 then 0 else (c.1 : ℚ) / (c.2 : ℚ)
    hot := c.1
    tot := c.2 }

/-- The pixels sampled by `estimateGlare`, in the order of its two loops. -/
def glareSamples (img : ImageData) (W x y w h stepX stepY : Int) : List (Nat × Nat × Nat) :=
  (strideValues y h stepY).flatMap
    (fun yy => (strideValues x w stepX).map (fun xx => getRGB img W xx yy))

/-- The result `{ cov, d }` of `scanSide`. -/
structure SideScan where
  cov : ℚ
  d : Int
deriving DecidableEq

/-- The inner loop of `scanSide` for one displacement: `hit / tot` over the
sample points whose outer and inner pixel both lie inside the `W × H` image, and
`0` when there is none.  `outPos t` is `(ax2, ay2)`, `inPos t` is `(bx, by)`. -/
def sideCoverage (img : ImageData) (W H : Int) (outPos inPos : Int → Int × Int)
    (scanLen step : Int) : ℚ :=
  let c : Nat × Nat :=
    (strideValues 0 scanLen step).foldl
      (fun acc t =>
        let a := outPos t
        let b := inPos t
        if 0 ≤ a.1 ∧ a.1 < W ∧ 0 ≤ a.2 ∧ a.2 < H ∧ 0 ≤ b.1 ∧ b.1 < W ∧ 0 ≤ b.2 ∧ b.2 < H then
          (if EDGE_DIFF < diffRGB (getRGB img W a.1 a.2) (getRGB img W b.1 b.2) then acc.1 + 1
            else acc.1, acc.2 + 1)
        else acc)
      (0, 0)
  if c.2 = 0 then 0 else (c.1 : ℚ) / (c.2 : ℚ)

/-- `scanSide(getOutIn, scanLen, step)` inside `detectLoop`; `getOutIn d` is the
pair `(outPos, inPos)`.  The displacement runs over
`for (d = -tolPx; d <= tolPx; d += scanStep)`. -/
def scanSide (img : ImageData) (W H tolPx scanStep : Int)
    (getOutIn : Int → (Int → Int × Int) × (Int → Int × Int)) (scanLen step : Int) : SideScan :=
  (strideValues (-tolPx) (2 * tolPx + 1) scanStep).foldl
    (fun best d =>
      let cov := sideCoverage img W H (getOutIn d).1 (getOutIn d).2 scanLen step
      if best.cov < cov then { cov := cov, d := d } else best)
    { cov := 0, d := 0 }

/-! ## OCR helpers -/

/-- The characters removed by `String.prototype.trim` (white space and line
terminators of ECMAScript). -/
def jsIsSpace (c : Char) : Bool :=
  c.toNat ∈ [0x09, 0x0A, 0x0B, 0x0C, 0x0D, 0x20, 0xA0, 0x1680, 0x2028, 0x2029, 0x202F,
    0x205F, 0x3000, 0xFEFF] || (0x2000 ≤ c.toNat && c.toNat ≤ 0x200A)

/-- `String.prototype.trim`. -/
def jsTrim (s : String) : String :=
  String.mk ((s.toList.dropWhile jsIsSpace).reverse.dropWhile jsIsSpace).reverse

/-- `extractTextFromDataUrl(dataUrl, lang)` as a function of what
`Tesseract.recognize` does: `none` when it throws, `some t` when it resolves with
`data.text = t` (`t = none` for a missing text).  A failure is caught and yields
the empty string. -/
def extractTextFromDataUrl (recognized : Option (Option String)) : String :=
  match recognized with
  | none => ""
  | some none => jsTrim ""
  | some (some text) => jsTrim (if text = "" then "" else text)

/-- `n` leading ASCII digits (`\d{n}`); the rest of the input when they are
there. -/
def eatDigits : Nat → List Char → Option (List Char)
  | 0, cs => some cs
  | _ + 1, [] => none
  | n + 1, c :: cs => if c.isDigit then eatDigits n cs else none

/-- One given leading character. -/
def eatChar (ch : Char) : List Char → Option (List Char)
  | [] => none
  | c :: cs => if c = ch then some cs else none

/-- Whether `\d{6}-\d{7}` matches at the start of the input. -/
def matchHere (cs : List Char) : Bool :=
  (((eatDigits 6 cs).bind (eatChar '-')).bind (eatDigits 7)).isSome

/-- Whether `\d{6}-\d{7}` matches at some position of the input: the pattern
has no anchor, every start position is tried from left to right. -/
def matchAnywhere : List Char → Bool
  | [] => matchHere []
  | c :: cs => matchHere (c :: cs) || matchAnywhere cs

/-- `JUMIN_REGEX.test(text)` for `JUMIN_REGEX = /\d{6}-\d{7}/`. -/
def JUMIN_REGEX (text : String) : Bool := matchAnywhere text.toList

/-- A word that is six ASCII digits, a hyphen, then seven ASCII digits. -/
def IsJuminNumber (w : List Char) : Prop :=
  ∃ ds1 ds2 : List Char, w = ds1 ++ '-' :: ds2 ∧ ds1.length = 6 ∧ ds2.length = 7 ∧
    (∀ c ∈ ds1, 48 ≤ c.toNat ∧ c.toNat ≤ 57) ∧ (∀ c ∈ ds2, 48 ≤ c.toNat ∧ c.toNat ≤ 57)

/-- Some contiguous substring of the text is six ASCII digits, a hyphen, then
seven ASCII digits. -/
def HasJuminSubstring (text : String) : Prop :=
  ∃ before w after : List Char, text.toList = before ++ w ++ after ∧ IsJuminNumber w

/-! ## Component state -/

/-- JavaScript truthiness of a value that is `null` or a string. -/
def truthy (v : Option String) : Bool :=
  match v with
  | none => false
  | some s => s ≠ ""

/-- The props of the component that the capture pipeline reads.
`ocrCheckPattern = none` is the `null` pattern, `some p` a pattern whose `test`
is `p`; `onOcrText` tells whether the optional callback was supplied. -/
structure Props where
  ocrCheckPattern : Option (String → Bool)
  onOcrText : Bool

/-- The default props: `ocrCheckPattern = JUMIN_REGEX`. -/
def defaultProps (onOcrText : Bool) : Props :=
  { ocrCheckPattern := some JUMIN_REGEX, onOcrText := onOcrText }

/-- The mutable state of a capture session: the React state variables, the two
refs `stableCountRef` and `capturingRef`, and the list of the texts handed to
`onOcrText` so far. -/
structure Session where
  isOpen : Bool
  ready : Bool
  isAligned : Bool
  capturedDataUrl : Option String
  glareRatio : ℚ
  glareBlocked : Bool
  ocrLoading : Bool
  stableCount : Nat
  capturing : Bool
  ocrTexts : List String
deriving DecidableEq

/-- How a tick or a capture sequence leaves the loop: nothing scheduled
(`idle`), `requestAnimationFrame(detectLoop)` called (`nextTick`), or the capture
sequence started (`capture`). -/
inductive Next where
  | idle
  | nextTick
  | capture
deriving DecidableEq, Repr

/-- A session that has just started scanning. -/
def scanning : Session :=
  { isOpen := true, ready := true, isAligned := false, capturedDataUrl := none,
    glareRatio := 0, glareBlocked := false, ocrLoading := false, stableCount := 0,
    capturing := false, ocrTexts := [] }

/-! ## Detection loop -/

/-- What one tick of `detectLoop` reads from the page: the video element and the
guide frame element (present or not), the intrinsic video size, their bounding
rectangles, and the bytes of the work canvas after the frame was drawn. -/
structure TickEnv where
  video : Bool
  frameEl : Bool
  videoWidth : Nat
  videoHeight : Nat
  vRect : Rect
  fRect : Rect
  pixels : List Nat

/-- Size `(cw, ch)` of the work canvas set by `drawVideoToWorkCanvas`. -/
def workSize (env : TickEnv) : Int × Int :=
  (max 1 (jsRound env.vRect.width), max 1 (jsRound env.vRect.height))

/-- The region of interest `(x, y, w, h)` of a tick. -/
def roi (env : TickEnv) : Int × Int × Int × Int :=
  let x := max 0 (jsRound (env.fRect.left - env.vRect.left))
  let y := max 0 (jsRound (env.fRect.top - env.vRect.top))
  let w := min ((workSize env).1 - x) (jsRound env.fRect.width)
  let h := min ((workSize env).2 - y) (jsRound env.fRect.height)
  (x, y, w, h)

/-- The image read back from the work canvas. -/
def workImage (env : TickEnv) : ImageData :=
  { width := (workSize env).1.toNat, height := (workSize env).2.toNat, data := env.pixels }

/-- The four `scanSide` results `(top, bottom, left, right)` of a tick together
with `tolPx`. -/
def scanSides (env : TickEnv) : SideScan × SideScan × SideScan × SideScan × Int :=
  let img := workImage env
  let W := (workSize env).1
  let H := (workSize env).2
  let x := (roi env).1
  let y := (roi env).2.1
  let w := (roi env).2.2.1
  let h := (roi env).2.2.2
  let off : Int := max 2 (jsRound ((min w h : Int) * (12 / 1000 : ℚ)))
  let stepX : Int := max 1 (jsRound ((w : ℚ) / 180))
  let stepY : Int := max 1 (jsRound ((h : ℚ) / 140))
  let tolPx : Int := max 2 (jsRound ((min w h : Int) * TOL_PCT))
  let scanStep : Int := max 1 (jsRound ((tolPx : ℚ) / 10))
  let topRes := scanSide img W H tolPx scanStep
    (fun d => (fun t => (x + t, (y + d) - off), fun t => (x + t, (y + d) + off))) w stepX
  let bottomRes := scanSide img W H tolPx scanStep
    (fun d => (fun t => (x + t, (y + h + d) + off), fun t => (x + t, (y + h + d) - off))) w stepX
  let leftRes := scanSide img W H tolPx scanStep
    (fun d => (fun t => ((x + d) - off, y + t), fun t => ((x + d) + off, y + t))) h stepY
  let rightRes := scanSide img W H tolPx scanStep
    (fun d => (fun t => ((x + w + d) + off, y + t), fun t => ((x + w + d) - off, y + t))) h stepY
  (topRes, bottomRes, leftRes, rightRes, tolPx)

/-- The value `okAlign` of a tick. -/
def okAlign (env : TickEnv) : Bool :=
  let r := scanSides env
  let tolPx := r.2.2.2.2
  decide (SIDE_COVER_MIN ≤ r.1.cov) && decide (SIDE_COVER_MIN ≤ r.2.1.cov) &&
  decide (SIDE_COVER_MIN ≤ r.2.2.1.cov) && decide (SIDE_COVER_MIN ≤ r.2.2.2.1.cov) &&
  decide (|r.1.d| ≤ tolPx) && decide (|r.2.1.d| ≤ tolPx) &&
  decide (|r.2.2.1.d| ≤ tolPx) && decide (|r.2.2.2.1.d| ≤ tolPx)

/-- The value `gRatio` of a tick. -/
def glareOf (env : TickEnv) : ℚ :=
  let w := (roi env).2.2.1
  let h := (roi env).2.2.2
  let stepX : Int := max 1 (jsRound ((w : ℚ) / 180))
  let stepY : Int := max 1 (jsRound ((h : ℚ) / 140))
  let glareSampleX : Int := max 2 (jsRound ((stepX : ℚ) / 2))
  let glareSampleY : Int := max 2 (jsRound ((stepY : ℚ) / 2))
  (estimateGlare (workImage env) (workSize env).1 (workSize env).2 (roi env).1 (roi env).2.1 w h
    glareSampleX glareSampleY).ratio

/-- What a tick finds out before it touches the session. -/
inductive Observation where
  /-- The video, the guide frame or the work canvas is not available. -/
  | noFrame
  /-- The region of interest is narrower or lower than `MIN_ROI_PX`. -/
  | tooSmall
  /-- The edge scan and the glare estimate were run. -/
  | measured (okAlign : Bool) (gRatio : ℚ)
deriving DecidableEq

/-- The observation of a tick: the early exits of `detectLoop` in their order,
then the edge scan and the glare estimate. -/
def observe (env : TickEnv) : Observation :=
  if !env.video || !env.frameEl || env.videoWidth = 0 then .noFrame
  else if env.videoHeight = 0 then .noFrame
  else if (roi env).2.2.1 < MIN_ROI_PX ∨ (roi env).2.2.2 < MIN_ROI_PX then .tooSmall
  else .measured (okAlign env) (glareOf env)

/-- The state update of one tick of `detectLoop`, given its observation. -/
def tick (s : Session) (o : Observation) : Session × Next :=
  if !s.isOpen || !s.ready || truthy s.capturedDataUrl || s.ocrLoading then (s, .idle)
  else
    match o with
    | .noFrame => (s, .nextTick)
    | .tooSmall =>
      ({ s with isAligned := false, glareBlocked := false, glareRatio := 0, stableCount := 0 },
        .nextTick)
    | .measured okAlign gRatio =>
      let glareTooHigh : Bool := decide ( GLARE_MAX_RATIO < gRatio)
      let s1 : Session :=
        { s with
          isAligned := okAlign
          glareRatio := gRatio
          glareBlocked := glareTooHigh
          stableCount := if okAlign && !glareTooHigh then s.stableCount + 1 else 0 }
      if STABLE_NEED ≤ s1.stableCount ∧ s1.capturing = false then
        ({ s1 with capturing := true }, .capture)
      else (s1, .nextTick)

/-- One call of `detectLoop`. -/
def detectLoop (s : Session) (env : TickEnv) : Session × Next :=
  tick s (observe env)

/-- The ticks of a session: each tick that ends with
`requestAnimationFrame(detectLoop)` is followed by the next one, any other
ending suspends the loop and the remaining observations are not consumed. -/
def runTicks (s : Session) : List Observation → Session × Next
  | [] => (s, .nextTick)
  | o :: os =>
    match tick s o with
    | (s1, .nextTick) => runTicks s1 os
    | r => r

/-- The guard at the head of `detectLoop` lets the tick run: the component is
open and ready, no preview is held and no OCR is in progress. -/
def Session.Scanning (s : Session) : Prop :=
  s.isOpen = true ∧ s.ready = true ∧ truthy s.capturedDataUrl = false ∧ s.ocrLoading = false

/-- The video element and the guide frame are mounted and the video has its
intrinsic size, so the tick gets as far as computing the region of interest. -/
def TickEnv.HasFrame (env : TickEnv) : Prop :=
  env.video = true ∧ env.frameEl = true ∧ env.videoWidth ≠ 0 ∧ env.videoHeight ≠ 0

/-- A tick is good when it found `aligned` true and the glare not blocking. -/
def Observation.good : Observation → Bool
  | .measured okAlign gRatio => okAlign && !decide ( GLARE_MAX_RATIO < gRatio)
  | _ => false

/-- The number of consecutive `true` entries at the end of a list: for the list
of the ticks so far, the number of consecutive good ticks ending at the last
one. -/
def streak (goods : List Bool) : Nat :=
  (goods.reverse.takeWhile (fun b => b)).length

/-! ## Capture sequence -/

/-- `d.length` of a JavaScript string: the number of its UTF-16 code units. -/
def jsLength (s : String) : Nat :=
  (s.toList.map (fun c => if c.toNat < 0x10000 then 1 else 2)).sum

/-- `captureBestOf(n)`: each attempt is the pair of what `captureCroppedHiRes`
and, when that gave nothing, `captureCroppedPreview` returned; the result is
`(best, bestSharp)`. -/
def captureBestOf (attempts : List (Option String × Option String)) : Option String × Int :=
  attempts.foldl
    (fun acc attempt =>
      let d := if truthy attempt.1 then attempt.1 else attempt.2
      match d with
      | none => acc
      | some url =>
        if url = "" then acc
        else if acc.2 < (jsLength url : Int) then (some url, (jsLength url : Int)) else acc)
    (none, -1)

/-- The still of one attempt: the high-resolution capture when it gave one,
otherwise the preview crop; `none` when the attempt failed on both paths. -/
def stillOf (attempt : Option String × Option String) : Option String :=
  if truthy attempt.1 then attempt.1
  else if truthy attempt.2 then attempt.2
  else none

/-- What the asynchronous steps of one capture sequence produced.
`attempts` feeds `captureBestOf`; `enhanced` is the result of `enhanceDataURL`,
`none` when its promise rejects because the image cannot be decoded;
`recognized` is the outcome of `Tesseract.recognize`. -/
structure CaptureRun where
  attempts : List (Option String × Option String)
  enhanced : Option String
  recognized : Option (Option String)

/-- The asynchronous capture sequence started by `detectLoop` once
`capturingRef.current` has been set. -/
def captureSequence (props : Props) (s : Session) (run : CaptureRun) : Session × Next :=
  let shot := (captureBestOf run.attempts).1
  if !truthy shot then
    ({ s with capturing := false, stableCount := 0 }, .nextTick)
  else
    let s1 : Session := { s with ocrLoading := true }
    match run.enhanced with
    | none => (s1, .idle)
    | some enhanced =>
      let text := extractTextFromDataUrl run.recognized
      let s2 : Session := if props.onOcrText then { s1 with ocrTexts := s1.ocrTexts ++ [text] } else s1
      let pass : Bool :=
        match props.ocrCheckPattern with
        | some pattern => pattern text
        | none => true
      if pass then
        ({ s2 with capturedDataUrl := some enhanced, ocrLoading := false }, .idle)
      else
        ({ s2 with ocrLoading := false, capturing := false, stableCount := 0 }, .nextTick)

/-- `handleUpload`: the data URL handed to `onUpload` as the final image, if
any. -/
def handleUpload (s : Session) : Option String :=
  if truthy s.capturedDataUrl then s.capturedDataUrl else none

/-! # Properties -/

/-! ## Lists as byte buffers -/

theorem getD_set (l : List Nat) (i j a : Nat) :
    (l.set i a).getD j 0 = if i = j ∧ j < l.length then a else l.getD j 0 := by
  induction l generalizing i j with
  | nil => simp
  | cons x xs ih =>
    cases i with
    | zero =>
      cases j with
      | zero => simp
      | succ j => simp
    | succ i =>
      cases j with
      | zero => simp
      | succ j =>
        have := ih i j
        simp only [List.getD_eq_getElem?_getD] at this
        simpa using this

theorem set_getD_self (l : List Nat) (i : Nat) : l.set i (l.getD i 0) = l := by
  induction l generalizing i with
  | nil => simp
  | cons x xs ih =>
    cases i with
    | zero => simp
    | succ i =>
      have := ih i
      simp only [List.getD_eq_getElem?_getD] at this
      simpa using this

theorem getD_le_of_forall (l : List Nat) (h : ∀ v ∈ l, v ≤ 255) (i : Nat) : l.getD i 0 ≤ 255 := by
  by_cases hi : i < l.length
  · rw [List.getD_eq_getElem _ _ hi]; exact h _ (List.getElem_mem _)
  · rw [List.getD_eq_default _ _ (by omega)]; omega

/-! ## Crop expansion -/

/-- The edges of `expandRectWithin` that are fixed by `Math.max` alone, and so
do not depend on how the arithmetic is rounded: the left and the top edge are not
before those of the bounds, and the width and the height are at least 1. -/
theorem expandRectWithin_clamped_edges (R B : Rect) :
    B.left ≤ (expandRectWithin R B).left ∧ B.top ≤ (expandRectWithin R B).top ∧
    1 ≤ (expandRectWithin R B).width ∧ 1 ≤ (expandRectWithin R B).height := by
  unfold expandRectWithin
  exact ⟨le_max_left _ _, le_max_left _ _, le_max_left _ _, le_max_left _ _⟩

/-! ## Auto-levels -/

theorem jsRound_intCast (z : Int) : jsRound (z : ℚ) = z := by
  unfold jsRound
  rw [Int.floor_eq_iff]
  constructor
  · linarith
  · linarith

/-- With the bounds `0` and `255` a byte is stretched to itself. -/
theorem stretch_full (v : Nat) (hv : v ≤ 255) : stretch v 0 255 = v := by
  unfold stretch
  have h : ((v : ℚ) - ((0 : Nat) : ℚ)) * 255 / (((255 : Nat) : ℚ) - ((0 : Nat) : ℚ))
      = ((v : Int) : ℚ) := by
    push_cast; field_simp
  rw [if_neg (by omega), h, jsRound_intCast]
  omega

theorem storeByte_natCast (v : Nat) (hv : v ≤ 255) : storeByte (v : Int) = v := by
  unfold storeByte; omega

theorem storeByte_mono (a b : Int) (h : a ≤ b) : storeByte a ≤ storeByte b := by
  unfold storeByte; omega

/-- The lower scan has stopped within `255 - lo` iterations: more fuel does not
change its result, so the bound `255` used by `loHi` is never what ends it. -/
theorem loScan_fuel (hist : List Nat) (clipCnt : Int) (fuel lo : Nat) (acc : Int)
    (h : 255 ≤ lo + fuel) :
    loScan hist clipCnt (fuel + 1) lo acc = loScan hist clipCnt fuel lo acc := by
  induction fuel generalizing lo acc with
  | zero =>
    have hlo : ¬ lo < 255 := by omega
    simp [loScan, hlo]
  | succ n ih =>
    rw [loScan]
    by_cases hc : acc < clipCnt ∧ lo < 255
    · rw [if_pos hc, ih (lo + 1) _ (by omega)]
      conv_rhs => rw [loScan, if_pos hc]
    · rw [if_neg hc]
      conv_rhs => rw [loScan, if_neg hc]

/-- The upper scan has stopped within `hi` iterations: more fuel does not change
its result. -/
theorem hiScan_fuel (hist : List Nat) (clipCnt : Int) (fuel hi : Nat) (acc : Int)
    (h : hi ≤ fuel) :
    hiScan hist clipCnt (fuel + 1) hi acc = hiScan hist clipCnt fuel hi acc := by
  induction fuel generalizing hi acc with
  | zero =>
    have hhi : ¬ 0 < hi := by omega
    simp [hiScan, hhi]
  | succ n ih =>
    rw [hiScan]
    by_cases hc : acc < clipCnt ∧ 0 < hi
    · rw [if_pos hc, ih (hi - 1) _ (by omega)]
      conv_rhs => rw [hiScan, if_pos hc]
    · rw [if_neg hc]
      conv_rhs => rw [hiScan, if_neg hc]

/-- With a clip budget of `0` neither loop of `loHi` runs. -/
theorem loHi_zero (hist : List Nat) : loHi hist 0 = (0, 255) := by
  simp [loHi, loScan, hiScan]

theorem levelPixel_full (d : List Nat) (h : ∀ v ∈ d, v ≤ 255) (i : Nat) :
    levelPixel (0, 255) (0, 255) (0, 255) d i = d := by
  unfold levelPixel
  simp only []
  rw [stretch_full _ (getD_le_of_forall d h _), stretch_full _ (getD_le_of_forall d h _),
    stretch_full _ (getD_le_of_forall d h _), storeByte_natCast _ (getD_le_of_forall d h _),
    storeByte_natCast _ (getD_le_of_forall d h _), storeByte_natCast _ (getD_le_of_forall d h _),
    set_getD_self, set_getD_self, set_getD_self]

theorem foldl_levelPixel_full (d : List Nat) (h : ∀ v ∈ d, v ≤ 255) (is : List Nat) :
    is.foldl (levelPixel (0, 255) (0, 255) (0, 255)) d = d := by
  induction is with
  | nil => rfl
  | cons i is ih => rw [List.foldl_cons, levelPixel_full d h, ih]

/-- `stretch` is monotone in the value for any bounds. -/
theorem stretch_mono (lo hi v1 v2 : Nat) (h : v1 ≤ v2) : stretch v1 lo hi ≤ stretch v2 lo hi := by
  unfold stretch
  split
  · exact_mod_cast h
  · rename_i hlo
    have hpos : (0 : ℚ) < (hi : ℚ) - (lo : ℚ) := by
      have : (lo : ℚ) < (hi : ℚ) := by exact_mod_cast (not_le.mp hlo)
      linarith
    have hv : (v1 : ℚ) ≤ (v2 : ℚ) := by exact_mod_cast h
    apply max_le_max le_rfl
    apply min_le_min le_rfl
    unfold jsRound
    apply Int.floor_le_floor
    have : ((v1 : ℚ) - lo) * 255 / ((hi : ℚ) - lo) ≤ ((v2 : ℚ) - lo) * 255 / ((hi : ℚ) - lo) := by
      apply div_le_div_of_nonneg_right _ hpos.le
      nlinarith
    linarith

theorem length_levelPixel (bR bG bB : Nat × Nat) (d : List Nat) (i : Nat) :
    (levelPixel bR bG bB d i).length = d.length := by
  simp [levelPixel]

/-- The bytes of a buffer after one iteration of the stretching loop. -/
theorem getD_levelPixel (bR bG bB : Nat × Nat) (d : List Nat) (i j : Nat) :
    (levelPixel bR bG bB d i).getD j 0 =
      if j < d.length then
        if j = i then (storeByte (stretch (d.getD j 0) bR.1 bR.2))
        else if j = i + 1 then (storeByte (stretch (d.getD j 0) bG.1 bG.2))
        else if j = i + 2 then (storeByte (stretch (d.getD j 0) bB.1 bB.2))
        else d.getD j 0
      else d.getD j 0 := by
  unfold levelPixel
  rw [getD_set, getD_set, getD_set]
  simp only [List.length_set]
  by_cases hj : j < d.length
  · simp only [hj, and_true, if_true]
    by_cases h0 : j = i
    · subst h0; simp
    · by_cases h1 : j = i + 1
      · subst h1; simp
      · by_cases h2 : j = i + 2
        · subst h2; simp
        · have e0 : ¬ i = j := fun e => h0 e.symm
          have e1 : ¬ i + 1 = j := fun e => h1 e.symm
          have e2 : ¬ i + 2 = j := fun e => h2 e.symm
          simp [h0, h1, h2, e0, e1, e2]
  · have hd : d.getD j 0 = 0 := List.getD_eq_default _ _ (by omega)
    simp [hj]

/-- The bytes of a buffer after the first `n` iterations of the stretching loop:
colour byte `c` of each of the first `n` pixels is the stretched original byte,
every other byte is the original one. -/
theorem getD_foldl_levelPixel (bR bG bB : Nat × Nat) (d : List Nat) (n j : Nat) :
    (((List.range n).map (fun k => 4 * k)).foldl (levelPixel bR bG bB) d).length = d.length ∧
    (((List.range n).map (fun k => 4 * k)).foldl (levelPixel bR bG bB) d).getD j 0 =
      if j / 4 < n ∧ j < d.length then
        if j % 4 = 0 then (storeByte (stretch (d.getD j 0) bR.1 bR.2))
        else if j % 4 = 1 then (storeByte (stretch (d.getD j 0) bG.1 bG.2))
        else if j % 4 = 2 then (storeByte (stretch (d.getD j 0) bB.1 bB.2))
        else d.getD j 0
      else d.getD j 0 := by
  induction n generalizing j with
  | zero => simp
  | succ n ih =>
    rw [List.range_succ, List.map_append, List.foldl_append]
    simp only [List.map_cons, List.map_nil, List.foldl_cons, List.foldl_nil]
    refine ⟨by rw [length_levelPixel]; exact (ih 0).1, ?_⟩
    rw [getD_levelPixel, (ih 0).1, (ih j).2]
    by_cases hj : j < d.length
    · simp only [hj, and_true, if_true]
      by_cases hlt : j / 4 < n
      · have h0 : ¬ j = 4 * n := by omega
        have h1 : ¬ j = 4 * n + 1 := by omega
        have h2 : ¬ j = 4 * n + 2 := by omega
        have hlt' : j / 4 < n + 1 := by omega
        simp only [hlt, hlt', h0, h1, h2, if_true, if_false]
      · simp only [hlt, if_false]
        by_cases heq : j / 4 = n
        · have hlt' : j / 4 < n + 1 := by omega
          simp only [hlt', if_true]
          have hm : j % 4 = 0 ∨ j % 4 = 1 ∨ j % 4 = 2 ∨ j % 4 = 3 := by omega
          rcases hm with hm | hm | hm | hm
          · have h0 : j = 4 * n := by omega
            simp only [hm, if_true]
            simp [h0]
          · have h0 : ¬ j = 4 * n := by omega
            have h1 : j = 4 * n + 1 := by omega
            simp only [hm, h0, if_false]
            simp [h1]
          · have h0 : ¬ j = 4 * n := by omega
            have h1 : ¬ j = 4 * n + 1 := by omega
            have h2 : j = 4 * n + 2 := by omega
            simp only [hm, h0, h1, if_false]
            simp [h2]
          · have h0 : ¬ j = 4 * n := by omega
            have h1 : ¬ j = 4 * n + 1 := by omega
            have h2 : ¬ j = 4 * n + 2 := by omega
            simp [hm, h0, h1, h2]
        · have hlt' : ¬ j / 4 < n + 1 := by omega
          have h0 : ¬ j = 4 * n := by omega
          have h1 : ¬ j = 4 * n + 1 := by omega
          have h2 : ¬ j = 4 * n + 2 := by omega
          simp only [hlt', h0, h1, h2, if_false]
    · simp [hj]

/-- Every byte of the result of `autoLevels`: a colour byte is the stretched
original byte, with the bounds of its channel; an alpha byte is the original. -/
theorem getD_autoLevels (img : ImageData) (clip : ℚ) (hwf : img.WF) (p c : Nat)
    (hp : p < img.width * img.height) (hc : c < 4) :
    (autoLevels img clip).data.getD (4 * p + c) 0 =
      if c < 3 then
        storeByte (stretch (img.data.getD (4 * p + c) 0) (channelBounds img clip c).1
          (channelBounds img clip c).2)
      else img.data.getD (4 * p + c) 0 := by
  have hlen : img.data.length = 4 * (img.width * img.height) := by rw [hwf.1]; ring
  unfold autoLevels pixelOffsets
  simp only []
  rw [(getD_foldl_levelPixel _ _ _ img.data _ (4 * p + c)).2]
  have h1 : (4 * p + c) / 4 < (img.data.length + 3) / 4 := by omega
  have h2 : 4 * p + c < img.data.length := by omega
  have h3 : (4 * p + c) % 4 = c := by omega
  simp only [h1, h2, h3, and_self, if_true]
  unfold channelBounds
  have hm : c = 0 ∨ c = 1 ∨ c = 2 ∨ c = 3 := by omega
  rcases hm with hm | hm | hm | hm <;> subst hm <;> simp

/-- C7: `autoLevels` with `clip = 0` returns every image unchanged, every R, G,
B and A byte of every pixel; in particular every image whose three histograms
are full range.  (The clip budget is `0`, so the bounds are `0` and `255`
whatever the histogram is.) -/
theorem autoLevels_clip_zero_identity (img : ImageData) (hwf : img.WF) :
    autoLevels img 0 = img := by
  unfold autoLevels levelBounds clipCount
  simp only [mul_zero, jsFloor, Int.floor_zero, loHi_zero]
  rw [foldl_levelPixel_full _ hwf.2]

/-- C7 on a 2×1 image with a black and a white pixel: every channel has both a
`0` and a `255`. -/
theorem autoLevels_clip_zero_identity_witness :
    autoLevels ⟨2, 1, [0, 0, 0, 255, 255, 255, 255, 255]⟩ 0
      = ⟨2, 1, [0, 0, 0, 255, 255, 255, 255, 255]⟩ :=
  autoLevels_clip_zero_identity ⟨2, 1, [0, 0, 0, 255, 255, 255, 255, 255]⟩ (by decide)

/-- C8: for the bounds `lo`, `hi` that `autoLevels` chooses for a channel and two
values `v1 < v2` in `0..255`, `stretch v1 lo hi ≤ stretch v2 lo hi`; and so, in
the image written back, two bytes of the same colour channel are never in the
inverse order of the original bytes. -/
theorem autoLevels_order_preserving (img : ImageData) (clip : ℚ) (hwf : img.WF) :
    (∀ c v1 v2 : Nat, v1 < v2 → v2 ≤ 255 →
      stretch v1 (channelBounds img clip c).1 (channelBounds img clip c).2 ≤
        stretch v2 (channelBounds img clip c).1 (channelBounds img clip c).2) ∧
    (∀ p q c : Nat, p < img.width * img.height → q < img.width * img.height → c < 3 →
      img.data.getD (4 * p + c) 0 < img.data.getD (4 * q + c) 0 →
      (autoLevels img clip).data.getD (4 * p + c) 0 ≤
        (autoLevels img clip).data.getD (4 * q + c) 0) := by
  constructor
  · intro c v1 v2 h _
    exact stretch_mono _ _ _ _ h.le
  · intro p q c hp hq hc h
    rw [getD_autoLevels img clip hwf p c hp (by omega),
      getD_autoLevels img clip hwf q c hq (by omega)]
    simp only [hc, if_true]
    exact storeByte_mono _ _ (stretch_mono _ _ _ _ h.le)

/-- C8 on a 2×1 image with the default clip fraction: red bytes `10 < 200`. -/
theorem autoLevels_order_preserving_witness :
    stretch 10 (channelBounds ⟨2, 1, [10, 0, 0, 255, 200, 255, 255, 255]⟩ (5 / 1000) 0).1
        (channelBounds ⟨2, 1, [10, 0, 0, 255, 200, 255, 255, 255]⟩ (5 / 1000) 0).2 ≤
      stretch 200 (channelBounds ⟨2, 1, [10, 0, 0, 255, 200, 255, 255, 255]⟩ (5 / 1000) 0).1
        (channelBounds ⟨2, 1, [10, 0, 0, 255, 200, 255, 255, 255]⟩ (5 / 1000) 0).2 ∧
    (autoLevels ⟨2, 1, [10, 0, 0, 255, 200, 255, 255, 255]⟩ (5 / 1000)).data.getD (4 * 0 + 0) 0 ≤
      (autoLevels ⟨2, 1, [10, 0, 0, 255, 200, 255, 255, 255]⟩ (5 / 1000)).data.getD (4 * 1 + 0) 0 :=
  ⟨(autoLevels_order_preserving ⟨2, 1, [10, 0, 0, 255, 200, 255, 255, 255]⟩ (5 / 1000)
      (by decide)).1 0 10 200 (by decide) (by decide),
   (autoLevels_order_preserving ⟨2, 1, [10, 0, 0, 255, 200, 255, 255, 255]⟩ (5 / 1000)
      (by decide)).2 0 1 0 (by decide) (by decide) (by decide) (by decide)⟩

/-! ## Sharpen -/

/-- A property that every step of a fold keeps holds at its end. -/
theorem foldl_keeps {α β : Type} (P : β → Prop) (f : β → α → β) (l : List α)
    (hf : ∀ b a, a ∈ l → P b → P (f b a)) (b : β) (hb : P b) : P (l.foldl f b) := by
  induction l generalizing b with
  | nil => exact hb
  | cons a t ih =>
    rw [List.foldl_cons]
    apply ih
    · intro b' a' ha' hb'
      exact hf b' a' (List.mem_cons_of_mem _ ha') hb'
    · exact hf b a (List.mem_cons_self _ _) hb

/-- A property that the step at `a0` establishes and every other step keeps holds
at the end of a fold that visits `a0`; `I` is an invariant of all the steps. -/
theorem foldl_reaches {α β : Type} (I Q : β → Prop) (f : β → α → β) (l : List α) (a0 : α)
    (h0 : a0 ∈ l) (hI : ∀ b a, I b → I (f b a)) (hest : ∀ b, I b → Q (f b a0))
    (hkeep : ∀ b a, a ≠ a0 → I b → Q b → Q (f b a)) (b : β) (hb : I b) :
    Q (l.foldl f b) := by
  induction l generalizing b with
  | nil => simp at h0
  | cons a t ih =>
    rw [List.foldl_cons]
    by_cases ht : a0 ∈ t
    · exact ih ht (f b a) (hI b a hb)
    · have ha : a0 = a := by
        rcases List.mem_cons.mp h0 with h | h
        · exact h
        · exact absurd h ht
      subst ha
      have h2 : I (t.foldl f (f b a0)) ∧ Q (t.foldl f (f b a0)) := by
        apply foldl_keeps (fun b => I b ∧ Q b) f t
        · intro b' a' ha' hb'
          have hne : a' ≠ a0 := fun e => ht (e ▸ ha')
          exact ⟨hI b' a' hb'.1, hkeep b' a' hne hb'.1 hb'.2⟩
        · exact ⟨hI b a0 hb, hest b hb⟩
      exact h2.2

/-- Two pixels of one row-major image with the same linear position are the same
pixel. -/
theorem pixel_position_inj (w x y x' y' : Nat) (hx : x < w) (hx' : x' < w)
    (h : y * w + x = y' * w + x') : x = x' ∧ y = y' := by
  have e1 : (y + 1) * w = y * w + w := by ring
  have e2 : (y' + 1) * w = y' * w + w := by ring
  rcases Nat.lt_trichotomy y y' with hlt | heq | hgt
  · have := Nat.mul_le_mul_right w (show y + 1 ≤ y' from hlt)
    omega
  · subst heq; omega
  · have := Nat.mul_le_mul_right w (show y' + 1 ≤ y from hgt)
    omega

theorem pixel_position_lt (w h x y : Nat) (hx : x < w) (hy : y < h) : y * w + x < w * h := by
  have e1 : (y + 1) * w = y * w + w := by ring
  have := Nat.mul_le_mul_right w (show y + 1 ≤ h from hy)
  have e2 : h * w = w * h := Nat.mul_comm _ _
  omega

theorem length_sharpenPixel (S : List Nat) (w : Nat) (k : List ℚ) (D : List Nat) (x y : Nat) :
    (sharpenPixel S w k D x y).length = D.length := by
  simp [sharpenPixel]

/-- The body of the loops of `applySharpen` at `(x, y)` writes the four bytes of
that pixel only. -/
theorem getD_sharpenPixel_other (S : List Nat) (w : Nat) (k : List ℚ) (D : List Nat)
    (x y j : Nat) (h : j < idx w x y ∨ idx w x y + 3 < j) :
    (sharpenPixel S w k D x y).getD j 0 = D.getD j 0 := by
  unfold sharpenPixel
  simp only []
  rw [getD_set, getD_set, getD_set, getD_set]
  have h0 : ¬ idx w x y = j := by omega
  have h1 : ¬ idx w x y + 1 = j := by omega
  have h2 : ¬ idx w x y + 2 = j := by omega
  have h3 : ¬ idx w x y + 3 = j := by omega
  simp [h0, h1, h2, h3]

/-- The body of the loops of `applySharpen` at `(x, y)` copies the alpha byte of
the source. -/
theorem getD_sharpenPixel_alpha (S : List Nat) (w : Nat) (k : List ℚ) (D : List Nat)
    (x y : Nat) (h : idx w x y + 3 < D.length) :
    (sharpenPixel S w k D x y).getD (idx w x y + 3) 0 = S.getD (idx w x y + 3) 0 := by
  unfold sharpenPixel
  simp only []
  rw [getD_set]
  simp [h]

theorem getD_replicate_zero (n j : Nat) : (List.replicate n 0).getD j 0 = 0 := by
  by_cases h : j < n
  · rw [List.getD_eq_getElem _ _ (by simpa using h)]; simp
  · rw [List.getD_eq_default _ _ (by simpa using h)]

/-- A byte of a pixel other than `(x, y)` is not written by the loop body at
`(x, y)`. -/
theorem getD_sharpenPixel_pixel (S : List Nat) (w : Nat) (k : List ℚ) (D : List Nat)
    (x y x' y' c : Nat) (hx : x < w) (hx' : x' < w) (hc : c < 4) (hne : ¬ (x = x' ∧ y = y')) :
    (sharpenPixel S w k D x' y').getD (idx w x y + c) 0 = D.getD (idx w x y + c) 0 := by
  apply getD_sharpenPixel_other
  have hpos : y * w + x ≠ y' * w + x' := fun e => hne (pixel_position_inj w x y x' y' hx hx' e)
  unfold idx
  omega

/-- What `applySharpen` writes back for a pixel of the outermost ring: the four
bytes are those of the freshly created `dst`, that is `0`. -/
theorem applySharpen_border (src : ImageData) (amt : ℚ) (x y c : Nat)
    (hx : x < src.width) (hc : c < 4)
    (hb : x = 0 ∨ x + 1 = src.width ∨ y = 0 ∨ y + 1 = src.height) :
    (applySharpen src amt).data.getD (idx src.width x y + c) 0 = 0 := by
  unfold applySharpen
  simp only []
  refine @foldl_keeps Nat (List Nat) (fun D => D.getD (idx src.width x y + c) 0 = 0) _ _ ?_ _ ?_
  · intro D y' hy' hD
    refine @foldl_keeps Nat (List Nat) (fun D => D.getD (idx src.width x y + c) 0 = 0) _ _ ?_ _ hD
    intro D' x' hx' hD'
    rw [List.mem_range'_1] at hx' hy'
    show (sharpenPixel _ _ _ D' x' y').getD _ 0 = 0
    rw [getD_sharpenPixel_pixel _ _ _ _ x y x' y' c hx (by omega) hc (by omega)]
    exact hD'
  · exact getD_replicate_zero _ _

/-- What `applySharpen` writes back for the alpha byte of a pixel inside the
outermost ring: the alpha byte of the source. -/
theorem applySharpen_inner_alpha (src : ImageData) (amt : ℚ) (x y : Nat)
    (hx : 1 ≤ x ∧ x + 1 < src.width) (hy : 1 ≤ y ∧ y + 1 < src.height) :
    (applySharpen src amt).data.getD (idx src.width x y + 3) 0 =
      src.data.getD (idx src.width x y + 3) 0 := by
  unfold applySharpen
  simp only []
  have hpos := pixel_position_lt src.width src.height x y (by omega) (by omega)
  have hlen : idx src.width x y + 3 < 4 * src.width * src.height := by
    have : 4 * src.width * src.height = 4 * (src.width * src.height) := by ring
    unfold idx; omega
  refine @foldl_reaches Nat (List Nat) (fun D => D.length = 4 * src.width * src.height)
    (fun D => D.getD (idx src.width x y + 3) 0 = src.data.getD (idx src.width x y + 3) 0)
    _ _ y ?_ ?_ ?_ ?_ _ ?_
  · rw [List.mem_range'_1]; omega
  · intro D y' hD
    refine @foldl_keeps Nat (List Nat) (fun D => D.length = 4 * src.width * src.height)
      _ _ ?_ _ hD
    intro D' x' _ hD'
    show (sharpenPixel _ _ _ D' x' y').length = _
    rw [length_sharpenPixel]; exact hD'
  · intro D hD
    refine @foldl_reaches Nat (List Nat) (fun D => D.length = 4 * src.width * src.height)
      (fun D => D.getD (idx src.width x y + 3) 0 = src.data.getD (idx src.width x y + 3) 0)
      _ _ x ?_ ?_ ?_ ?_ _ hD
    · rw [List.mem_range'_1]; omega
    · intro D' x' hD'
      show (sharpenPixel _ _ _ D' x' y).length = _
      rw [length_sharpenPixel]; exact hD'
    · intro D' hD'
      exact getD_sharpenPixel_alpha _ _ _ _ _ _ (by omega)
    · intro D' x' hne _ hQ
      show (sharpenPixel _ _ _ D' x' y).getD _ 0 = _
      by_cases hx' : x' < src.width
      · rw [getD_sharpenPixel_pixel _ _ _ _ x y x' y 3 (by omega) hx' (by omega)
          (fun e => hne e.1.symm)]
        exact hQ
      · rw [getD_sharpenPixel_other]
        · exact hQ
        · left; unfold idx; omega
  · intro D y' hne _ hQ
    refine @foldl_keeps Nat (List Nat)
      (fun D => D.getD (idx src.width x y + 3) 0 = src.data.getD (idx src.width x y + 3) 0)
      _ _ ?_ _ hQ
    intro D' x' hx' hQ'
    rw [List.mem_range'_1] at hx'
    show (sharpenPixel _ _ _ D' x' y').getD _ 0 = _
    rw [getD_sharpenPixel_pixel _ _ _ _ x y x' y' 3 (by omega) (by omega) (by omega)
      (fun e => hne e.2.symm)]
    exact hQ'
  · simp

/-- C1 (evaluation): a 3×3 image that is opaque white everywhere, sharpened with
the amount `0.45` used by `enhanceDataURL`.  The centre pixel comes back as
opaque white; the eight pixels of the outermost ring, opaque white before the
call, come back as `(0, 0, 0, 0)`. -/
theorem applySharpen_white_ring_lost :
    applySharpen ⟨3, 3, List.replicate 36 255⟩ (45 / 100) =
      ⟨3, 3, List.replicate 16 0 ++ [255, 255, 255, 255] ++ List.replicate 16 0⟩ := by
  have ha : max (0 : ℚ) (min 1 (45 / 100)) = 45 / 100 := by norm_num
  have hconv : ∀ c, c < 3 →
      convolve (List.replicate 36 255) 3 (kernel (45 / 100)) 1 1 c = 255 := by
    intro c hc
    have hm : c = 0 ∨ c = 1 ∨ c = 2 := by omega
    rcases hm with hm | hm | hm <;> subst hm <;>
      norm_num [convolve, kernel, idx, List.range, List.range.loop, List.replicate, List.getD]
  have hst : toUint8Clamped (max 0 (min 255 (255 : ℚ))) = 255 := by
    norm_num [toUint8Clamped]
  unfold applySharpen
  simp only [ha, List.range', List.foldl, sharpenPixel]
  rw [hconv 0 (by omega), hconv 1 (by omega), hconv 2 (by omega), hst]
  rfl

/-! ## Detection loop -/

/-- C9: whenever the width or the height of the region of interest computed for
a tick is below `MIN_ROI_PX`, whatever the frame holds, the tick makes no
measurement (no edge scan, no glare estimate), sets `isAligned` to false, resets
the stability counter to 0, does not start a capture and schedules the next
tick. -/
theorem detectLoop_small_roi (s : Session) (env : TickEnv) (hs : s.Scanning)
    (hf : env.HasFrame)
    (hroi : (roi env).2.2.1 < MIN_ROI_PX ∨ (roi env).2.2.2 < MIN_ROI_PX) :
    observe env = .tooSmall ∧
    (∀ pixels : List Nat,
      detectLoop s { env with pixels := pixels } =
        ({ s with isAligned := false, glareBlocked := false, glareRatio := 0, stableCount := 0 },
          .nextTick)) ∧
    (detectLoop s env).1.isAligned = false ∧
    (detectLoop s env).1.stableCount = 0 ∧
    (detectLoop s env).1.capturing = s.capturing ∧
    (detectLoop s env).2 = .nextTick := by
  obtain ⟨h1, h2, h3, h4⟩ := hs
  obtain ⟨g1, g2, g3, g4⟩ := hf
  have hobs : ∀ pixels : List Nat, observe { env with pixels := pixels } = .tooSmall := by
    intro pixels
    have hr : roi { env with pixels := pixels } = roi env := rfl
    unfold observe
    simp only [hr]
    simp [g1, g2, g3, g4, hroi]
  have hobs0 : observe env = .tooSmall := hobs env.pixels
  have htick : tick s .tooSmall =
      ({ s with isAligned := false, glareBlocked := false, glareRatio := 0, stableCount := 0 },
        .nextTick) := by
    unfold tick
    simp [h1, h2, h3, h4]
  refine ⟨hobs0, ?_, ?_, ?_, ?_, ?_⟩
  · intro pixels
    unfold detectLoop
    rw [hobs pixels, htick]
  all_goals
    unfold detectLoop
    rw [hobs0, htick]

/-- C9 on a 100×60 guide frame in a 400×600 video rectangle. -/
theorem detectLoop_small_roi_witness :
    observe ⟨true, true, 1920, 1080, ⟨0, 0, 400, 600⟩, ⟨150, 270, 100, 60⟩, []⟩ = .tooSmall ∧
    (∀ pixels : List Nat,
      detectLoop scanning
          { (⟨true, true, 1920, 1080, ⟨0, 0, 400, 600⟩, ⟨150, 270, 100, 60⟩, []⟩ : TickEnv) with
            pixels := pixels } =
        ({ scanning with
            isAligned := false, glareBlocked := false, glareRatio := 0, stableCount := 0 },
          .nextTick)) ∧
    (detectLoop scanning
      ⟨true, true, 1920, 1080, ⟨0, 0, 400, 600⟩, ⟨150, 270, 100, 60⟩, []⟩).1.isAligned = false ∧
    (detectLoop scanning
      ⟨true, true, 1920, 1080, ⟨0, 0, 400, 600⟩, ⟨150, 270, 100, 60⟩, []⟩).1.stableCount = 0 ∧
    (detectLoop scanning
      ⟨true, true, 1920, 1080, ⟨0, 0, 400, 600⟩, ⟨150, 270, 100, 60⟩, []⟩).1.capturing
        = scanning.capturing ∧
    (detectLoop scanning
      ⟨true, true, 1920, 1080, ⟨0, 0, 400, 600⟩, ⟨150, 270, 100, 60⟩, []⟩).2 = .nextTick :=
  detectLoop_small_roi scanning
    ⟨true, true, 1920, 1080, ⟨0, 0, 400, 600⟩, ⟨150, 270, 100, 60⟩, []⟩
    (by simp [Session.Scanning, scanning, truthy])
    (by simp [TickEnv.HasFrame])
    (by
      right
      norm_num [roi, workSize, jsRound, MIN_ROI_PX])

theorem runTicks_singleton (s : Session) (o : Observation) : runTicks s [o] = tick s o := by
  unfold runTicks
  rcases h : tick s o with ⟨s1, n⟩
  cases n <;> simp [runTicks]

theorem runTicks_cons (s : Session) (o : Observation) (os : List Observation) :
    runTicks s (o :: os) =
      match tick s o with
      | (s1, .nextTick) => runTicks s1 os
      | r => r := rfl

theorem runTicks_append (s : Session) (l1 l2 : List Observation) :
    runTicks s (l1 ++ l2) =
      if (runTicks s l1).2 = .nextTick then runTicks (runTicks s l1).1 l2 else runTicks s l1 := by
  induction l1 generalizing s with
  | nil => simp [runTicks]
  | cons o os ih =>
    rw [List.cons_append, runTicks_cons s o (os ++ l2), runTicks_cons s o os]
    rcases h : tick s o with ⟨s1, n⟩
    cases n
    · simp
    · simp only []
      exact ih s1
    · simp

theorem streak_nil : streak [] = 0 := rfl

theorem streak_append_singleton (l : List Bool) (b : Bool) :
    streak (l ++ [b]) = if b then streak l + 1 else 0 := by
  unfold streak
  cases b <;> simp [List.takeWhile_cons]

/-- The stability counter and the capture trigger of one tick that has a frame,
in a scanning session that is not capturing. -/
theorem tick_scanning (s : Session) (o : Observation) (hs : s.Scanning)
    (hcap : s.capturing = false) (ho : o ≠ .noFrame) :
    (tick s o).1.stableCount = (if o.good then s.stableCount + 1 else 0) ∧
    (tick s o).1.Scanning ∧
    (if STABLE_NEED ≤ (tick s o).1.stableCount
      then (tick s o).2 = .capture ∧ (tick s o).1.capturing = true
      else (tick s o).2 = .nextTick ∧ (tick s o).1.capturing = false) := by
  obtain ⟨h1, h2, h3, h4⟩ := hs
  cases o with
  | noFrame => exact absurd rfl ho
  | tooSmall =>
    simp [tick, h1, h2, h3, h4, hcap, Observation.good, Session.Scanning, STABLE_NEED]
  | measured a g =>
    by_cases hg : (a && !decide ( GLARE_MAX_RATIO < g)) = true
    · by_cases hn : STABLE_NEED ≤ s.stableCount + 1
      · simp [tick, h1, h2, h3, h4, hcap, Observation.good, Session.Scanning, hg, hn]
      · simp [tick, h1, h2, h3, h4, hcap, Observation.good, Session.Scanning, hg, hn]
    · simp [tick, h1, h2, h3, h4, hcap, Observation.good, Session.Scanning, hg, STABLE_NEED]

/-- The state of the loop after a run of ticks none of which, except possibly
the last, completed `STABLE_NEED` consecutive good ticks. -/
theorem runTicks_streak (s : Session) (hs : s.Scanning) (hcap : s.capturing = false)
    (hcnt : s.stableCount = 0) (obs : List Observation) (hfr : ∀ o ∈ obs, o ≠ .noFrame)
    (hearly : ∀ j, 0 < j → j < obs.length →
      streak ((obs.take j).map Observation.good) < STABLE_NEED) :
    (runTicks s obs).1.stableCount = streak (obs.map Observation.good) ∧
    (runTicks s obs).1.Scanning ∧
    (if STABLE_NEED ≤ streak (obs.map Observation.good)
      then (runTicks s obs).2 = .capture ∧ (runTicks s obs).1.capturing = true
      else (runTicks s obs).2 = .nextTick ∧ (runTicks s obs).1.capturing = false) := by
  induction obs using List.reverseRecOn with
  | nil => simp [runTicks, streak_nil, hcnt, hs, hcap, STABLE_NEED]
  | append_singleton init o ih =>
    have hfr' : ∀ o ∈ init, o ≠ .noFrame := fun o' ho' => hfr o' (by simp [ho'])
    have hearly' : ∀ j, 0 < j → j < init.length →
        streak ((init.take j).map Observation.good) < STABLE_NEED := by
      intro j hj0 hj
      have := hearly j hj0 (by simp; omega)
      rwa [List.take_append_of_le_length (by omega)] at this
    have hinit : streak (init.map Observation.good) < STABLE_NEED := by
      rcases Nat.eq_zero_or_pos init.length with h0 | hpos
      · have : init = [] := List.length_eq_zero.mp h0
        subst this
        simp [streak_nil, STABLE_NEED]
      · have := hearly init.length hpos (by simp)
        rwa [List.take_append_of_le_length (le_refl _), List.take_length] at this
    obtain ⟨ihc, ihs, ihn⟩ := ih hfr' hearly'
    rw [if_neg (by omega)] at ihn
    have ho : o ≠ .noFrame := hfr o (by simp)
    have ht := tick_scanning (runTicks s init).1 o ihs ihn.2 ho
    rw [runTicks_append, if_pos ihn.1, runTicks_singleton, List.map_append, List.map_singleton,
      streak_append_singleton]
    rw [ihc] at ht
    obtain ⟨t1, t2, t3⟩ := ht
    rw [t1] at t3
    exact ⟨t1, t2, t3⟩

/-- A tick that finds no video frame passes the guard, changes nothing in the
session, the stability counter included, and schedules the next tick. -/
theorem tick_noFrame (s : Session) (hs : s.Scanning) : tick s .noFrame = (s, .nextTick) := by
  obtain ⟨h1, h2, h3, h4⟩ := hs
  simp [tick, h1, h2, h3, h4]

/-- C4 as stated fails on a tick that finds no video frame, which is not a good
tick: from a fresh scanning session, after a good tick and a tick without a
frame the counter is 1, not 0, and `isAligned` is still true; a second good tick
then starts the capture with the counter at 2, although only one good tick ends
the sequence. -/
theorem stability_noFrame_counterexample :
    (runTicks scanning [.measured true 0, .noFrame]).1.stableCount = 1 ∧
    (runTicks scanning [.measured true 0, .noFrame]).1.isAligned = true ∧
    (runTicks scanning [.measured true 0, .noFrame]).2 = .nextTick ∧
    streak (([.measured true 0, .noFrame] : List Observation).map Observation.good) = 0 ∧
    (runTicks scanning [.measured true 0, .noFrame, .measured true 0]).1.stableCount = 2 ∧
    (runTicks scanning [.measured true 0, .noFrame, .measured true 0]).2 = .capture ∧
    streak (([.measured true 0, .noFrame, .measured true 0] : List Observation).map
      Observation.good) = 1 ∧
    STABLE_NEED = 2 := by
  have hg : Observation.good (.measured true 0) = true := by
    norm_num [Observation.good, GLARE_MAX_RATIO]
  have hn : Observation.good .noFrame = false := rfl
  have h2 : runTicks scanning [.measured true 0, .noFrame] =
      ({ scanning with isAligned := true, stableCount := 1 }, .nextTick) := by
    norm_num [runTicks, tick, scanning, truthy, GLARE_MAX_RATIO, STABLE_NEED]
  have h3 : runTicks scanning [.measured true 0, .noFrame, .measured true 0] =
      ({ scanning with isAligned := true, stableCount := 2, capturing := true }, .capture) := by
    norm_num [runTicks, tick, scanning, truthy, GLARE_MAX_RATIO, STABLE_NEED]
  refine ⟨by rw [h2], by rw [h2], by rw [h2], ?_, by rw [h3], by rw [h3], ?_, rfl⟩
  · simp [streak, hg, hn]
  · simp [streak, hg, hn]

/-- C4 (as amended): start in Scanning with the stability counter at 0 and not
capturing, and let `obs` be the ticks so far, each of which found a video frame,
such that no earlier tick completed `STABLE_NEED` consecutive good ticks.  Then
the counter after the last tick is the number of consecutive good ticks ending
at it, the capture starts at that tick exactly when this number reaches
`STABLE_NEED`, and otherwise the next tick is scheduled.  With `STABLE_NEED = 2`
the sequence good, bad, good, good schedules the next tick after each of its
first three ticks and starts the capture at the fourth; a run of good ticks
starts it at tick `STABLE_NEED` and not at tick `STABLE_NEED - 1`. -/
theorem stability_debounce (s : Session) (hs : s.Scanning) (hcap : s.capturing = false)
    (hcnt : s.stableCount = 0) (obs : List Observation) (hfr : ∀ o ∈ obs, o ≠ .noFrame)
    (hearly : ∀ j, 0 < j → j < obs.length →
      streak ((obs.take j).map Observation.good) < STABLE_NEED) :
    (runTicks s obs).1.stableCount = streak (obs.map Observation.good) ∧
    ((runTicks s obs).2 = .capture ↔ STABLE_NEED ≤ streak (obs.map Observation.good)) ∧
    ((runTicks s obs).2 = .nextTick ↔ streak (obs.map Observation.good) < STABLE_NEED) ∧
    STABLE_NEED = 2 ∧
    (runTicks s [.measured true 0]).2 = .nextTick ∧
    (runTicks s [.measured true 0, .measured false 0]).2 = .nextTick ∧
    (runTicks s [.measured true 0, .measured false 0, .measured true 0]).2 = .nextTick ∧
    (runTicks s [.measured true 0, .measured false 0, .measured true 0, .measured true 0]).2
      = .capture ∧
    (runTicks s (List.replicate (STABLE_NEED - 1) (.measured true 0))).2 = .nextTick ∧
    (runTicks s (List.replicate STABLE_NEED (.measured true 0))).2 = .capture := by
  obtain ⟨r1, -, r3⟩ := runTicks_streak s hs hcap hcnt obs hfr hearly
  have hex : ∀ l : List Observation, (∀ o ∈ l, o ≠ .noFrame) →
      (∀ j, 0 < j → j < l.length → streak ((l.take j).map Observation.good) < STABLE_NEED) →
      ((runTicks s l).2 = .capture ↔ STABLE_NEED ≤ streak (l.map Observation.good)) ∧
      ((runTicks s l).2 = .nextTick ↔ streak (l.map Observation.good) < STABLE_NEED) := by
    intro l hl1 hl2
    obtain ⟨-, -, q3⟩ := runTicks_streak s hs hcap hcnt l hl1 hl2
    by_cases hn : STABLE_NEED ≤ streak (l.map Observation.good)
    · rw [if_pos hn] at q3
      constructor
      · exact ⟨fun _ => hn, fun _ => q3.1⟩
      · constructor
        · intro h; rw [q3.1] at h; cases h
        · intro h; omega
    · rw [if_neg hn] at q3
      constructor
      · constructor
        · intro h; rw [q3.1] at h; cases h
        · intro h; exact absurd h hn
      · exact ⟨fun _ => by omega, fun _ => q3.1⟩
  have hgood : Observation.good (.measured true 0) = true := by
    norm_num [Observation.good, GLARE_MAX_RATIO]
  have hbad : Observation.good (.measured false 0) = false := by
    simp [Observation.good]
  refine ⟨r1, (hex obs hfr hearly).1, (hex obs hfr hearly).2, rfl, ?_, ?_, ?_, ?_, ?_, ?_⟩
  · refine (hex _ ?_ ?_).2.mpr ?_
    · simp
    · intro j h0 hj; simp at hj; omega
    · simp [streak, hgood, STABLE_NEED]
  · refine (hex _ ?_ ?_).2.mpr ?_
    · simp
    · intro j h0 hj
      simp at hj
      have : j = 1 := by omega
      subst this
      simp [streak, hgood, STABLE_NEED]
    · simp [streak, hgood, hbad, STABLE_NEED]
  · refine (hex _ ?_ ?_).2.mpr ?_
    · simp
    · intro j h0 hj
      simp at hj
      have : j = 1 ∨ j = 2 := by omega
      rcases this with h | h <;> subst h <;> simp [streak, hgood, hbad, STABLE_NEED]
    · simp [streak, hgood, hbad, STABLE_NEED]
  · refine (hex _ ?_ ?_).1.mpr ?_
    · simp
    · intro j h0 hj
      simp at hj
      have : j = 1 ∨ j = 2 ∨ j = 3 := by omega
      rcases this with h | h | h <;> subst h <;> simp [streak, hgood, hbad, STABLE_NEED]
    · simp [streak, hgood, hbad, STABLE_NEED]
  · refine (hex _ ?_ ?_).2.mpr ?_
    · simp [STABLE_NEED]
    · intro j h0 hj; simp [STABLE_NEED] at hj; omega
    · simp [streak, hgood, STABLE_NEED]
  · refine (hex _ ?_ ?_).1.mpr ?_
    · simp [STABLE_NEED]
    · intro j h0 hj
      simp [STABLE_NEED] at hj
      have : j = 1 := by omega
      subst this
      simp [streak, hgood, STABLE_NEED, List.replicate]
    · simp [streak, hgood, STABLE_NEED, List.replicate]

/-- C4 (as amended) on the sequence good, bad, good, good from a fresh scanning
session. -/
theorem stability_debounce_witness :
    (runTicks scanning
      [.measured true 0, .measured false 0, .measured true 0, .measured true 0]).1.stableCount =
      streak (([.measured true 0, .measured false 0, .measured true 0, .measured true 0] :
        List Observation).map Observation.good) ∧
    ((runTicks scanning
      [.measured true 0, .measured false 0, .measured true 0, .measured true 0]).2 = .capture ↔
      STABLE_NEED ≤
        streak (([.measured true 0, .measured false 0, .measured true 0, .measured true 0] :
          List Observation).map Observation.good)) :=
  have h := stability_debounce scanning (by simp [Session.Scanning, scanning, truthy]) rfl rfl
    [.measured true 0, .measured false 0, .measured true 0, .measured true 0]
    (by simp)
    (by
      intro j h0 hj
      simp at hj
      have hg : Observation.good (.measured true 0) = true := by
        norm_num [Observation.good, GLARE_MAX_RATIO]
      have hb : Observation.good (.measured false 0) = false := by
        simp [Observation.good]
      have : j = 1 ∨ j = 2 ∨ j = 3 := by omega
      rcases this with h | h | h <;> subst h <;> simp [streak, hg, hb, STABLE_NEED])
  ⟨h.1, h.2.1⟩

/-! ## Capture sequence -/

/-- When `enhanceDataURL` rejects, the capture sequence stops after
`setOcrLoading(true)`: nothing is reset and nothing is scheduled. -/
theorem captureSequence_enhance_rejects (props : Props) (s : Session) (run : CaptureRun)
    (hshot : truthy (captureBestOf run.attempts).1 = true) (he : run.enhanced = none) :
    captureSequence props s run = ({ s with ocrLoading := true }, .idle) := by
  unfold captureSequence
  simp [hshot, he]

/-- C2 (evaluation): from a fresh scanning session two good ticks start the
capture; `captureBestOf` yields a candidate and `enhanceDataURL` rejects.  The
sequence ends with `ocrLoading` and `capturing` still set, the stability counter
still at 2 and no tick scheduled, and every later call of `detectLoop` returns at
its guard without scheduling anything. -/
theorem enhance_failure_stalls :
    (runTicks scanning [.measured true 0, .measured true 0]).2 = .capture ∧
    (captureSequence (defaultProps true)
        (runTicks scanning [.measured true 0, .measured true 0]).1
        ⟨[(some "data:image/jpeg;base64,AAAA", none)], none, none⟩) =
      ({ scanning with
          isAligned := true, stableCount := 2, capturing := true, ocrLoading := true },
        .idle) ∧
    (∀ env : TickEnv,
      detectLoop
        { scanning with
          isAligned := true, stableCount := 2, capturing := true, ocrLoading := true } env =
        ({ scanning with
            isAligned := true, stableCount := 2, capturing := true, ocrLoading := true },
          .idle)) := by
  have hrun : runTicks scanning [.measured true 0, .measured true 0] =
      ({ scanning with isAligned := true, stableCount := 2, capturing := true }, .capture) := by
    norm_num [runTicks, tick, scanning, truthy, GLARE_MAX_RATIO, STABLE_NEED]
  refine ⟨by rw [hrun], ?_, ?_⟩
  · rw [hrun, captureSequence_enhance_rejects _ _ _ (by decide) rfl]
  · intro env
    simp [detectLoop, tick, scanning]

/-- C5: when a validation pattern is configured and the recognised text does
not match it, the capture sequence (started from a scanning session, candidate
found, enhancement done, the `onOcrText` callback supplied) ends back in
Scanning: stability counter 0, `capturing` and `ocrLoading` cleared, no preview
image set, so that `handleUpload` emits no final image, the next tick scheduled
and let through by the guard of `detectLoop`, and `onOcrText` called with the
recognised text.  The empty text does not match the default pattern, and the
empty text is what an OCR failure yields. -/
theorem validation_failure_resumes (props : Props) (s : Session) (run : CaptureRun)
    (pattern : String → Bool) (enhanced : String)
    (hs : s.Scanning)
    (hshot : truthy (captureBestOf run.attempts).1 = true)
    (he : run.enhanced = some enhanced)
    (hcb : props.onOcrText = true)
    (hpat : props.ocrCheckPattern = some pattern)
    (hfail : pattern (extractTextFromDataUrl run.recognized) = false) :
    (captureSequence props s run).1.Scanning ∧
    (captureSequence props s run).1.stableCount = 0 ∧
    (captureSequence props s run).1.capturing = false ∧
    (captureSequence props s run).1.ocrLoading = false ∧
    (captureSequence props s run).1.capturedDataUrl = s.capturedDataUrl ∧
    handleUpload (captureSequence props s run).1 = none ∧
    (captureSequence props s run).2 = .nextTick ∧
    (captureSequence props s run).1.ocrTexts =
      s.ocrTexts ++ [extractTextFromDataUrl run.recognized] ∧
    JUMIN_REGEX "" = false ∧
    extractTextFromDataUrl none = "" := by
  have h : captureSequence props s run =
      ({ s with
          ocrTexts := s.ocrTexts ++ [extractTextFromDataUrl run.recognized]
          ocrLoading := false, capturing := false, stableCount := 0 }, .nextTick) := by
    unfold captureSequence
    simp [hshot, he, hcb, hpat, hfail]
  obtain ⟨h1, h2, h3, h4⟩ := hs
  rw [h]
  refine ⟨⟨h1, h2, h3, rfl⟩, rfl, rfl, rfl, rfl, ?_, rfl, rfl, by decide, rfl⟩
  simp [handleUpload, h3]

/-- C5 under the default pattern when the OCR engine fails. -/
theorem validation_failure_resumes_witness :
    (captureSequence (defaultProps true) { scanning with stableCount := 2, capturing := true }
      ⟨[(some "data:image/jpeg;base64,AAAA", none)], some "data:image/jpeg;base64,BBBB",
        none⟩).1.stableCount = 0 ∧
    (captureSequence (defaultProps true) { scanning with stableCount := 2, capturing := true }
      ⟨[(some "data:image/jpeg;base64,AAAA", none)], some "data:image/jpeg;base64,BBBB",
        none⟩).2 = .nextTick ∧
    (captureSequence (defaultProps true) { scanning with stableCount := 2, capturing := true }
      ⟨[(some "data:image/jpeg;base64,AAAA", none)], some "data:image/jpeg;base64,BBBB",
        none⟩).1.ocrTexts = [""] :=
  have h := validation_failure_resumes (defaultProps true)
    { scanning with stableCount := 2, capturing := true }
    ⟨[(some "data:image/jpeg;base64,AAAA", none)], some "data:image/jpeg;base64,BBBB", none⟩
    JUMIN_REGEX "data:image/jpeg;base64,BBBB"
    (by simp [Session.Scanning, scanning, truthy]) (by decide) rfl rfl rfl (by decide)
  ⟨h.2.1, h.2.2.2.2.2.2.1, h.2.2.2.2.2.2.2.1⟩

/-- C6: when no validation pattern is configured, or the recognised text matches
the configured pattern, the capture sequence (candidate found, enhancement done,
the `onOcrText` callback supplied) ends in Previewing: the enhanced image is held
as the preview, `ocrLoading` is cleared, the sequence schedules no tick,
`onOcrText` has been called with exactly the recognised text and, the preview
being a non-empty data URL, every later call of `detectLoop` returns at its guard
without scheduling a tick. -/
theorem validation_pass_previews (props : Props) (s : Session) (run : CaptureRun)
    (enhanced : String)
    (hshot : truthy (captureBestOf run.attempts).1 = true)
    (he : run.enhanced = some enhanced)
    (hcb : props.onOcrText = true)
    (hpass : props.ocrCheckPattern = none ∨
      ∃ pattern, props.ocrCheckPattern = some pattern ∧
        pattern (extractTextFromDataUrl run.recognized) = true) :
    (captureSequence props s run).1.capturedDataUrl = some enhanced ∧
    (captureSequence props s run).1.ocrLoading = false ∧
    (captureSequence props s run).2 = .idle ∧
    (captureSequence props s run).1.ocrTexts =
      s.ocrTexts ++ [extractTextFromDataUrl run.recognized] ∧
    (enhanced ≠ "" → ∀ env : TickEnv,
      detectLoop (captureSequence props s run).1 env = ((captureSequence props s run).1, .idle))
    := by
  have h : captureSequence props s run =
      ({ s with
          ocrTexts := s.ocrTexts ++ [extractTextFromDataUrl run.recognized]
          capturedDataUrl := some enhanced, ocrLoading := false }, .idle) := by
    unfold captureSequence
    rcases hpass with hp | ⟨pattern, hp, hm⟩
    · simp [hshot, he, hcb, hp]
    · simp [hshot, he, hcb, hp, hm]
  rw [h]
  refine ⟨rfl, rfl, rfl, rfl, ?_⟩
  intro hne env
  simp [detectLoop, tick, truthy, hne]

/-- C6 under the default pattern when the OCR engine reads `123456-1234567`. -/
theorem validation_pass_previews_witness :
    (captureSequence (defaultProps true) { scanning with stableCount := 2, capturing := true }
      ⟨[(some "data:image/jpeg;base64,AAAA", none)], some "data:image/jpeg;base64,BBBB",
        some (some "123456-1234567")⟩).1.capturedDataUrl = some "data:image/jpeg;base64,BBBB" ∧
    (captureSequence (defaultProps true) { scanning with stableCount := 2, capturing := true }
      ⟨[(some "data:image/jpeg;base64,AAAA", none)], some "data:image/jpeg;base64,BBBB",
        some (some "123456-1234567")⟩).2 = .idle ∧
    (captureSequence (defaultProps true) { scanning with stableCount := 2, capturing := true }
      ⟨[(some "data:image/jpeg;base64,AAAA", none)], some "data:image/jpeg;base64,BBBB",
        some (some "123456-1234567")⟩).1.ocrTexts = ["123456-1234567"] :=
  have h := validation_pass_previews (defaultProps true)
    { scanning with stableCount := 2, capturing := true }
    ⟨[(some "data:image/jpeg;base64,AAAA", none)], some "data:image/jpeg;base64,BBBB",
      some (some "123456-1234567")⟩
    "data:image/jpeg;base64,BBBB" (by decide) rfl rfl
    (Or.inr ⟨JUMIN_REGEX, rfl, by decide⟩)
  ⟨h.1, h.2.2.1, by
    have h4 := h.2.2.2.1
    have ht : extractTextFromDataUrl (some (some "123456-1234567")) = "123456-1234567" := by
      decide
    rw [ht] at h4
    exact h4⟩

/-! ## Glare estimate -/

/-- The loop counter of `for (v = start; v < start + len; v += step)` with a
positive `step` takes exactly the values `start + k * step` below `start + len`.
-/
theorem mem_strideValues (start len step v : Int) (hstep : 0 < step) :
    v ∈ strideValues start len step ↔
      ∃ k : Nat, v = start + (k : Int) * step ∧ v < start + len := by
  unfold strideValues strideCount
  rw [List.mem_map]
  constructor
  · intro hex
    obtain ⟨k, hk, hv⟩ := hex
    rw [List.mem_range] at hk
    refine ⟨k, hv.symm, ?_⟩
    by_cases hlen : len ≤ 0
    · rw [if_pos hlen] at hk; omega
    · rw [if_neg hlen] at hk
      have h1 : ((k : Int) + 1) ≤ (len + step - 1) / step := by omega
      have h2 := (Int.le_ediv_iff_mul_le hstep).mp h1
      have h3 : ((k : Int) + 1) * step = (k : Int) * step + step := by ring
      rw [h3] at h2
      rw [← hv]
      omega
  · intro hex
    obtain ⟨k, hv, hlt⟩ := hex
    refine ⟨k, ?_, hv.symm⟩
    rw [List.mem_range]
    have hks : 0 ≤ (k : Int) * step := by positivity
    have hlen : ¬ len ≤ 0 := by omega
    rw [if_neg hlen]
    have h3 : ((k : Int) + 1) * step = (k : Int) * step + step := by ring
    have h1 : ((k : Int) + 1) ≤ (len + step - 1) / step := by
      apply (Int.le_ediv_iff_mul_le hstep).mpr
      rw [h3]
      omega
    omega

/-- A non-empty extent and a positive stride give at least one loop value. -/
theorem strideValues_ne_nil (start len step : Int) (hlen : 0 < len) (hstep : 0 < step) :
    strideValues start len step ≠ [] := by
  intro h
  have hm : start ∈ strideValues start len step :=
    (mem_strideValues start len step start hstep).mpr ⟨0, by simp, by omega⟩
  rw [h] at hm
  simp at hm

theorem glare_row (g : Int → Nat × Nat × Nat) (xs : List Int) (acc : Nat × Nat) :
    xs.foldl (fun acc xx => (if isHot (g xx) then acc.1 + 1 else acc.1, acc.2 + 1)) acc =
      (acc.1 + (xs.map g).countP isHot, acc.2 + xs.length) := by
  induction xs generalizing acc with
  | nil => simp
  | cons x xs ih =>
    rw [List.foldl_cons, ih]
    by_cases hx : isHot (g x) = true
    · simp [hx, List.countP_cons]; omega
    · simp [hx, List.countP_cons]; omega

theorem glare_rows (g : Int → Int → Nat × Nat × Nat) (xs ys : List Int) (acc : Nat × Nat) :
    ys.foldl
        (fun acc yy =>
          xs.foldl (fun acc xx => (if isHot (g xx yy) then acc.1 + 1 else acc.1, acc.2 + 1)) acc)
        acc =
      (acc.1 + (ys.flatMap (fun yy => xs.map (fun xx => g xx yy))).countP isHot,
        acc.2 + (ys.flatMap (fun yy => xs.map (fun xx => g xx yy))).length) := by
  induction ys generalizing acc with
  | nil => simp
  | cons y ys ih =>
    rw [List.foldl_cons, glare_row (fun xx => g xx y) xs acc, ih]
    simp only [List.flatMap_cons, List.countP_append, List.length_append, List.length_map]
    ext <;> simp <;> omega

/-- The counters of `estimateGlare` count the sampled pixels and the hot ones
among them. -/
theorem glareCounts_eq (img : ImageData) (W x y w h stepX stepY : Int) :
    glareCounts img W x y w h stepX stepY =
      ((glareSamples img W x y w h stepX stepY).countP isHot,
        (glareSamples img W x y w h stepX stepY).length) := by
  unfold glareCounts glareSamples
  rw [glare_rows (fun xx yy => getRGB img W xx yy)]
  simp

theorem isHot_white : isHot (255, 255, 255) = true := by
  norm_num [isHot, luma, spread, GLARE_Y, GLARE_SAT_DELTA]

theorem isHot_gray : isHot (128, 128, 128) = false := by
  norm_num [isHot, luma, spread, GLARE_Y, GLARE_SAT_DELTA]

/-- C10: for a region with `w > 0`, `h > 0` and positive sampling steps,
`estimateGlare` takes at least one sample, `tot` is the number of grid samples,
`hot` the number of those whose luma `0.2126 R + 0.7152 G + 0.0722 B` reaches
`GLARE_Y` and whose channel spread is at most `GLARE_SAT_DELTA`, and
`ratio = hot / tot`, so `0 ≤ ratio ≤ 1`; `ratio = 1` when every sampled pixel is
pure white and `ratio = 0` when every sampled pixel is mid-gray. -/
theorem estimateGlare_ratio (img : ImageData) (W H x y w h stepX stepY : Int)
    (hw : 0 < w) (hh : 0 < h) (hsx : 0 < stepX) (hsy : 0 < stepY) :
    0 < (estimateGlare img W H x y w h stepX stepY).tot ∧
    (estimateGlare img W H x y w h stepX stepY).tot =
      (glareSamples img W x y w h stepX stepY).length ∧
    (estimateGlare img W H x y w h stepX stepY).hot =
      ((glareSamples img W x y w h stepX stepY).filter
        (fun p => decide (GLARE_Y ≤ luma p ∧ spread p ≤ GLARE_SAT_DELTA))).length ∧
    (estimateGlare img W H x y w h stepX stepY).ratio =
      ((estimateGlare img W H x y w h stepX stepY).hot : ℚ) /
        ((estimateGlare img W H x y w h stepX stepY).tot : ℚ) ∧
    0 ≤ (estimateGlare img W H x y w h stepX stepY).ratio ∧
    (estimateGlare img W H x y w h stepX stepY).ratio ≤ 1 ∧
    ((∀ p ∈ glareSamples img W x y w h stepX stepY, p = (255, 255, 255)) →
      (estimateGlare img W H x y w h stepX stepY).ratio = 1) ∧
    ((∀ p ∈ glareSamples img W x y w h stepX stepY, p = (128, 128, 128)) →
      (estimateGlare img W H x y w h stepX stepY).ratio = 0) := by
  have hne : glareSamples img W x y w h stepX stepY ≠ [] := by
    obtain ⟨yy, hyy⟩ := List.exists_mem_of_ne_nil _ (strideValues_ne_nil y h stepY hh hsy)
    obtain ⟨xx, hxx⟩ := List.exists_mem_of_ne_nil _ (strideValues_ne_nil x w stepX hw hsx)
    intro hnil
    have hm : getRGB img W xx yy ∈ glareSamples img W x y w h stepX stepY := by
      unfold glareSamples
      rw [List.mem_flatMap]
      exact ⟨yy, hyy, List.mem_map.mpr ⟨xx, hxx, rfl⟩⟩
    rw [hnil] at hm
    simp at hm
  have hpos : 0 < (glareSamples img W x y w h stepX stepY).length :=
    List.length_pos.mpr hne
  have hle : (glareSamples img W x y w h stepX stepY).countP isHot ≤
      (glareSamples img W x y w h stepX stepY).length := List.countP_le_length _
  have hfilter : (glareSamples img W x y w h stepX stepY).countP isHot =
      ((glareSamples img W x y w h stepX stepY).filter
        (fun p => decide (GLARE_Y ≤ luma p ∧ spread p ≤ GLARE_SAT_DELTA))).length := by
    rw [List.countP_eq_length_filter]
    congr 2
    funext p
    simp [isHot]
  have hposq : (0 : ℚ) < ((glareSamples img W x y w h stepX stepY).length : ℚ) := by
    exact_mod_cast hpos
  have hratio : (estimateGlare img W H x y w h stepX stepY).ratio =
      (((glareSamples img W x y w h stepX stepY).countP isHot : Nat) : ℚ) /
        (((glareSamples img W x y w h stepX stepY).length : Nat) : ℚ) := by
    unfold estimateGlare
    simp only [glareCounts_eq]
    rw [if_neg (by omega)]
  have htot : (estimateGlare img W H x y w h stepX stepY).tot =
      (glareSamples img W x y w h stepX stepY).length := by
    unfold estimateGlare; simp only [glareCounts_eq]
  have hhot : (estimateGlare img W H x y w h stepX stepY).hot =
      (glareSamples img W x y w h stepX stepY).countP isHot := by
    unfold estimateGlare; simp only [glareCounts_eq]
  refine ⟨by rw [htot]; exact hpos, htot, by rw [hhot, hfilter], by rw [hratio, hhot, htot],
    ?_, ?_, ?_, ?_⟩
  · rw [hratio]; positivity
  · rw [hratio, div_le_one hposq]; exact_mod_cast hle
  · intro hall
    rw [hratio]
    have : (glareSamples img W x y w h stepX stepY).countP isHot =
        (glareSamples img W x y w h stepX stepY).length := by
      rw [List.countP_eq_length]
      intro p hp
      rw [hall p hp]; exact isHot_white
    rw [this]
    exact div_self (ne_of_gt hposq)
  · intro hall
    rw [hratio]
    have : (glareSamples img W x y w h stepX stepY).countP isHot = 0 := by
      rw [List.countP_eq_zero]
      intro p hp
      rw [hall p hp, isHot_gray]
      simp
    rw [this]
    simp

/-- C10 on an all-white 4×4 image sampled with step 2: four samples, all hot. -/
theorem estimateGlare_ratio_witness :
    0 < (estimateGlare ⟨4, 4, List.replicate 64 255⟩ 4 4 0 0 4 4 2 2).tot ∧
    (estimateGlare ⟨4, 4, List.replicate 64 255⟩ 4 4 0 0 4 4 2 2).ratio ≤ 1 ∧
    (estimateGlare ⟨4, 4, List.replicate 64 255⟩ 4 4 0 0 4 4 2 2).ratio = 1 :=
  have h := estimateGlare_ratio ⟨4, 4, List.replicate 64 255⟩ 4 4 0 0 4 4 2 2
    (by decide) (by decide) (by decide) (by decide)
  ⟨h.1, h.2.2.2.2.2.1, h.2.2.2.2.2.2.1 (by decide)⟩

/-! ## Best-of capture -/

theorem stillOf_eq_none (a : Option String × Option String) :
    stillOf a = none ↔ truthy a.1 = false ∧ truthy a.2 = false := by
  unfold stillOf
  rcases a with ⟨hi, pre⟩
  cases hi with
  | none =>
    cases pre with
    | none => simp [truthy]
    | some q => by_cases hq : q = "" <;> simp [truthy, hq]
  | some p =>
    by_cases hp : p = ""
    · cases pre with
      | none => simp [truthy, hp]
      | some q => by_cases hq : q = "" <;> simp [truthy, hp, hq]
    · simp [truthy, hp]

/-- One more attempt after a run of attempts: a failed attempt changes nothing,
a still replaces the best one exactly when it is strictly longer. -/
theorem captureBestOf_snoc (init : List (Option String × Option String))
    (a : Option String × Option String) :
    captureBestOf (init ++ [a]) =
      match stillOf a with
      | none => captureBestOf init
      | some url =>
        if (captureBestOf init).2 < (jsLength url : Int) then (some url, (jsLength url : Int))
        else captureBestOf init := by
  unfold captureBestOf stillOf
  rw [List.foldl_append]
  rcases a with ⟨hi, pre⟩
  simp only [List.foldl_cons, List.foldl_nil]
  cases hi with
  | none =>
    cases pre with
    | none => simp [truthy]
    | some q => by_cases hq : q = "" <;> simp [truthy, hq]
  | some p =>
    by_cases hp : p = ""
    · cases pre with
      | none => simp [truthy, hp]
      | some q => by_cases hq : q = "" <;> simp [truthy, hp, hq]
    · simp [truthy, hp]

/-- The state `(best, bestSharp)` of `captureBestOf` after a run of attempts:
either no attempt gave a still, or `best` is the still of some attempt `i`, no
still is longer and every still before `i` is strictly shorter. -/
theorem captureBestOf_state (attempts : List (Option String × Option String)) :
    ((captureBestOf attempts).1 = none →
      (captureBestOf attempts).2 = -1 ∧ ∀ a ∈ attempts, stillOf a = none) ∧
    (∀ best, (captureBestOf attempts).1 = some best →
      (captureBestOf attempts).2 = (jsLength best : Int) ∧
      ∃ (i : Nat) (a : Option String × Option String), attempts[i]? = some a ∧ stillOf a = some best ∧
        (∀ (j : Nat) b s, attempts[j]? = some b → stillOf b = some s → jsLength s ≤ jsLength best) ∧
        (∀ (j : Nat) b s, j < i → attempts[j]? = some b → stillOf b = some s →
          jsLength s < jsLength best)) := by
  induction attempts using List.reverseRecOn with
  | nil =>
    constructor
    · intro _; exact ⟨rfl, by simp⟩
    · intro best h; simp [captureBestOf] at h
  | append_singleton init a ih =>
    obtain ⟨ihn, ihs⟩ := ih
    rw [captureBestOf_snoc]
    cases hst : stillOf a with
    | none =>
      simp only []
      constructor
      · intro h
        obtain ⟨h1, h2⟩ := ihn h
        refine ⟨h1, ?_⟩
        intro b hb
        rcases List.mem_append.mp hb with hb | hb
        · exact h2 b hb
        · simp at hb; rw [hb]; exact hst
      · intro best h
        obtain ⟨h1, i, b, hi, hb, hmax, hearly⟩ := ihs best h
        have hilt : i < init.length := (List.getElem?_eq_some.mp hi).1
        refine ⟨h1, i, b, ?_, hb, ?_, ?_⟩
        · rw [List.getElem?_append_left hilt]; exact hi
        · intro j c s hj hc
          by_cases hjl : j < init.length
          · rw [List.getElem?_append_left hjl] at hj
            exact hmax j c s hj hc
          · have hjlen := (List.getElem?_eq_some.mp hj).1
            simp at hjlen
            have hje : j = init.length := by omega
            subst hje
            simp at hj
            subst hj
            rw [hst] at hc; cases hc
        · intro j c s hji hj hc
          have hjl : j < init.length := by omega
          rw [List.getElem?_append_left hjl] at hj
          exact hearly j c s hji hj hc
    | some url =>
      simp only []
      by_cases hlt : (captureBestOf init).2 < (jsLength url : Int)
      · rw [if_pos hlt]
        constructor
        · intro h; cases h
        · intro best h
          simp only [Option.some.injEq] at h
          subst h
          refine ⟨rfl, init.length, a, by simp, hst, ?_, ?_⟩
          · intro j c s hj hc
            by_cases hjl : j < init.length
            · rw [List.getElem?_append_left hjl] at hj
              cases hb : (captureBestOf init).1 with
              | none =>
                have := (ihn hb).2 c (List.getElem?_mem hj)
                rw [this] at hc; cases hc
              | some b0 =>
                obtain ⟨h1, _, _, _, _, hmax, _⟩ := ihs b0 hb
                have := hmax j c s hj hc
                rw [h1] at hlt
                omega
            · have hjlen := (List.getElem?_eq_some.mp hj).1
              simp at hjlen
              have hje : j = init.length := by omega
              subst hje
              simp at hj
              subst hj
              rw [hst] at hc
              simp only [Option.some.injEq] at hc
              subst hc
              exact le_refl _
          · intro j c s hji hj hc
            rw [List.getElem?_append_left hji] at hj
            cases hb : (captureBestOf init).1 with
            | none =>
              have := (ihn hb).2 c (List.getElem?_mem hj)
              rw [this] at hc; cases hc
            | some b0 =>
              obtain ⟨h1, _, _, _, _, hmax, _⟩ := ihs b0 hb
              have := hmax j c s hj hc
              rw [h1] at hlt
              omega
      · rw [if_neg hlt]
        constructor
        · intro h
          have := (ihn h).1
          rw [this] at hlt
          exact absurd (by omega : (-1 : Int) < (jsLength url : Int)) hlt
        · intro best h
          obtain ⟨h1, i, b, hi, hb, hmax, hearly⟩ := ihs best h
          have hilt : i < init.length := (List.getElem?_eq_some.mp hi).1
          refine ⟨h1, i, b, ?_, hb, ?_, ?_⟩
          · rw [List.getElem?_append_left hilt]; exact hi
          · intro j c s hj hc
            by_cases hjl : j < init.length
            · rw [List.getElem?_append_left hjl] at hj
              exact hmax j c s hj hc
            · have hjlen := (List.getElem?_eq_some.mp hj).1
              simp at hjlen
              have hje : j = init.length := by omega
              subst hje
              simp at hj
              subst hj
              rw [hst] at hc
              simp only [Option.some.injEq] at hc
              subst hc
              rw [h1] at hlt
              omega
          · intro j c s hji hj hc
            have hjl : j < init.length := by omega
            rw [List.getElem?_append_left hjl] at hj
            exact hearly j c s hji hj hc

/-- C11: for every sequence of capture attempts, `captureBestOf` returns no
candidate exactly when every attempt fails on both the high-resolution and the
preview path; otherwise it returns the still of a successful attempt whose score
(the length of the data URL) no other still exceeds, and among the attempts with
that highest score the earliest one: every still before it is strictly shorter.
-/
theorem captureBestOf_highest_earliest (attempts : List (Option String × Option String)) :
    ((captureBestOf attempts).1 = none ↔
      ∀ a ∈ attempts, truthy a.1 = false ∧ truthy a.2 = false) ∧
    (∀ best, (captureBestOf attempts).1 = some best →
      ∃ (i : Nat) (a : Option String × Option String), attempts[i]? = some a ∧ stillOf a = some best ∧
        (∀ (j : Nat) b s, attempts[j]? = some b → stillOf b = some s → jsLength s ≤ jsLength best) ∧
        (∀ (j : Nat) b s, j < i → attempts[j]? = some b → stillOf b = some s →
          jsLength s < jsLength best)) := by
  obtain ⟨hn, hs⟩ := captureBestOf_state attempts
  refine ⟨⟨?_, ?_⟩, fun best h => (hs best h).2⟩
  · intro h a ha
    exact (stillOf_eq_none a).mp ((hn h).2 a ha)
  · intro hall
    cases hb : (captureBestOf attempts).1 with
    | none => rfl
    | some best =>
      obtain ⟨_, i, a, hi, ha, _, _⟩ := hs best hb
      have := (stillOf_eq_none a).mpr (hall a (List.getElem?_mem hi))
      rw [this] at ha; cases ha

/-- C11 on three attempts: a preview still of length 3, then two high-resolution
stills of length 4; the first of the two longest is returned. -/
theorem captureBestOf_highest_earliest_witness :
    (captureBestOf [(none, some "abc"), (some "abcd", none), (some "wxyz", none)]).1
      = some "abcd" ∧
    ∃ (i : Nat) (a : Option String × Option String), [(none, some "abc"), (some "abcd", none), (some "wxyz", none)][i]? = some a ∧
      stillOf a = some "abcd" ∧
      (∀ (j : Nat) b s, [(none, some "abc"), (some "abcd", none), (some "wxyz", none)][j]? = some b →
        stillOf b = some s → jsLength s ≤ jsLength "abcd") ∧
      (∀ (j : Nat) b s, j < i →
        [(none, some "abc"), (some "abcd", none), (some "wxyz", none)][j]? = some b →
        stillOf b = some s → jsLength s < jsLength "abcd") :=
  ⟨by decide,
    (captureBestOf_highest_earliest
      [(none, some "abc"), (some "abcd", none), (some "wxyz", none)]).2 "abcd" (by decide)⟩

/-! ## High-resolution crop -/

/-- The final clamp of `captureCroppedHiRes` on one axis: whatever the rescaled
offset `p0` and extent `e0` are, in a bitmap of extent `b ≥ 1` the clamped
offset and extent are a non-empty interval inside `0..b`. -/
theorem clamp_to_bitmap (p0 e0 b : Int) (hb : 1 ≤ b) :
    0 ≤ max 0 (min p0 (b - 1)) ∧
    1 ≤ max 1 (min e0 (b - max 0 (min p0 (b - 1)))) ∧
    max 0 (min p0 (b - 1)) + max 1 (min e0 (b - max 0 (min p0 (b - 1)))) ≤ b := by
  omega

/-- C12: for a video of intrinsic size `vw × vh` shown in a display rectangle
`vRect` (sizes positive, so that every quotient of the computation is defined),
any guide rectangle `fRect` and a still bitmap of width `bw ≥ 1` and height
`bh ≥ 1`, the crop `(sx, sy, sw, sh)` of the high-resolution path satisfies
`sx ≥ 0`, `sy ≥ 0`, `sw ≥ 1`, `sh ≥ 1`, `sx + sw ≤ bw` and `sy + sh ≤ bh`. -/
theorem sensorCrop_inside_bitmap (vw vh : Nat) (vRect fRect : Rect) (bw bh : Nat)
    (hvw : 0 < vw) (hvh : 0 < vh) (hcw : 0 < vRect.width) (hch : 0 < vRect.height)
    (hbw : 1 ≤ bw) (hbh : 1 ≤ bh) :
    0 ≤ (sensorCrop vw vh vRect fRect bw bh).1 ∧
    0 ≤ (sensorCrop vw vh vRect fRect bw bh).2.1 ∧
    1 ≤ (sensorCrop vw vh vRect fRect bw bh).2.2.1 ∧
    1 ≤ (sensorCrop vw vh vRect fRect bw bh).2.2.2 ∧
    (sensorCrop vw vh vRect fRect bw bh).1 + (sensorCrop vw vh vRect fRect bw bh).2.2.1
      ≤ (bw : Int) ∧
    (sensorCrop vw vh vRect fRect bw bh).2.1 + (sensorCrop vw vh vRect fRect bw bh).2.2.2
      ≤ (bh : Int) ∧
    0 < (coverFit vw vh vRect.width vRect.height).1 ∧
    0 < (coverFit vw vh vRect.width vRect.height).2.1 := by
  have hx := clamp_to_bitmap
    (jsRound (((videoCrop vw vh vRect fRect).1 : ℚ) * ((bw : ℚ) / (vw : ℚ))))
    (jsRound (((videoCrop vw vh vRect fRect).2.2.1 : ℚ) * ((bw : ℚ) / (vw : ℚ))))
    (bw : Int) (by exact_mod_cast hbw)
  have hy := clamp_to_bitmap
    (jsRound (((videoCrop vw vh vRect fRect).2.1 : ℚ) * ((bh : ℚ) / (vh : ℚ))))
    (jsRound (((videoCrop vw vh vRect fRect).2.2.2 : ℚ) * ((bh : ℚ) / (vh : ℚ))))
    (bh : Int) (by exact_mod_cast hbh)
  have hvwq : (0 : ℚ) < (vw : ℚ) := by exact_mod_cast hvw
  have hvhq : (0 : ℚ) < (vh : ℚ) := by exact_mod_cast hvh
  have hratio : (0 : ℚ) < (vw : ℚ) / (vh : ℚ) := div_pos hvwq hvhq
  refine ⟨hx.1, hy.1, hx.2.1, hy.2.1, hx.2.2, hy.2.2, ?_, ?_⟩
  · unfold coverFit
    simp only []
    split
    · exact mul_pos hch hratio
    · exact hcw
  · unfold coverFit
    simp only []
    split
    · exact hch
    · exact div_pos hcw hratio

/-- C12 for a 1920×1080 video shown in a 400×600 element, a guide frame of
300×190 at (50, 200) and a 4000×3000 still. -/
theorem sensorCrop_inside_bitmap_witness :
    0 ≤ (sensorCrop 1920 1080 ⟨0, 0, 400, 600⟩ ⟨50, 200, 300, 190⟩ 4000 3000).1 ∧
    1 ≤ (sensorCrop 1920 1080 ⟨0, 0, 400, 600⟩ ⟨50, 200, 300, 190⟩ 4000 3000).2.2.1 ∧
    (sensorCrop 1920 1080 ⟨0, 0, 400, 600⟩ ⟨50, 200, 300, 190⟩ 4000 3000).1 +
      (sensorCrop 1920 1080 ⟨0, 0, 400, 600⟩ ⟨50, 200, 300, 190⟩ 4000 3000).2.2.1
        ≤ ((4000 : Nat) : Int) :=
  have h := sensorCrop_inside_bitmap 1920 1080 ⟨0, 0, 400, 600⟩ ⟨50, 200, 300, 190⟩ 4000 3000
    (by decide) (by decide) (by norm_num) (by norm_num) (by decide) (by decide)
  ⟨h.1, h.2.2.1, h.2.2.2.2.1⟩

/-! ## Clip bounds of auto-levels -/

theorem getD_bump (hist : List Nat) (u v : Nat) :
    (bump hist u).getD v 0 =
      if u = v ∧ v < hist.length then hist.getD v 0 + 1 else hist.getD v 0 := by
  unfold bump
  rw [getD_set]
  by_cases h : u = v
  · subst h; rfl
  · simp [h]

theorem length_bump (hist : List Nat) (u : Nat) : (bump hist u).length = hist.length := by
  simp [bump]

/-- Bumping a histogram once per value adds, in each bin, the number of times the
value of the bin occurs. -/
theorem getD_foldl_bump (vs : List Nat) (hist : List Nat) (v : Nat) (hv : v < hist.length) :
    (vs.foldl bump hist).getD v 0 = hist.getD v 0 + vs.count v := by
  induction vs generalizing hist with
  | nil => simp
  | cons u us ih =>
    rw [List.foldl_cons, ih (bump hist u) (by rw [length_bump]; exact hv), getD_bump,
      List.count_cons]
    by_cases h : u = v
    · simp [h, hv]; omega
    · simp [h]

/-- The first loop of `autoLevels` builds each of its three histograms from the
values of one channel. -/
theorem foldl_histograms (d : List Nat) (is : List Nat) (a b c : List Nat) :
    is.foldl
        (fun hs i =>
          (bump hs.1 (d.getD i 0), bump hs.2.1 (d.getD (i + 1) 0),
            bump hs.2.2 (d.getD (i + 2) 0)))
        (a, b, c) =
      ((is.map (fun i => d.getD i 0)).foldl bump a,
        (is.map (fun i => d.getD (i + 1) 0)).foldl bump b,
        (is.map (fun i => d.getD (i + 2) 0)).foldl bump c) := by
  induction is generalizing a b c with
  | nil => rfl
  | cons i is ih => simp only [List.foldl_cons, List.map_cons, ih]

theorem pixelOffsets_wf (img : ImageData) (hwf : img.WF) :
    pixelOffsets img.data = (List.range (img.width * img.height)).map (fun k => 4 * k) := by
  unfold pixelOffsets
  have : (img.data.length + 3) / 4 = img.width * img.height := by
    rw [hwf.1]
    have : 4 * img.width * img.height = 4 * (img.width * img.height) := by ring
    omega
  rw [this]

/-- The histogram of channel `c` built by `autoLevels` holds, in bin `v`, the
number of pixels whose channel value is `v`. -/
theorem histograms_count (img : ImageData) (hwf : img.WF) (v : Nat) (hv : v < 256) :
    (histograms img.data).1.getD v 0 = (channelValues img 0).count v ∧
    (histograms img.data).2.1.getD v 0 = (channelValues img 1).count v ∧
    (histograms img.data).2.2.getD v 0 = (channelValues img 2).count v := by
  unfold histograms channelValues
  rw [foldl_histograms, pixelOffsets_wf img hwf]
  simp only [List.map_map]
  refine ⟨?_, ?_, ?_⟩
  · rw [getD_foldl_bump _ _ _ (by rw [List.length_replicate]; exact hv), getD_replicate_zero,
      Nat.zero_add]
    rfl
  · rw [getD_foldl_bump _ _ _ (by rw [List.length_replicate]; exact hv), getD_replicate_zero,
      Nat.zero_add]
    rfl
  · rw [getD_foldl_bump _ _ _ (by rw [List.length_replicate]; exact hv), getD_replicate_zero,
      Nat.zero_add]
    rfl

theorem countBelow_succ (vals : List Nat) (l : Nat) :
    countBelow vals (l + 1) = countBelow vals l + vals.count l := by
  unfold countBelow
  induction vals with
  | nil => simp
  | cons v vs ih =>
    rw [List.countP_cons, List.countP_cons, List.count_cons, ih]
    by_cases h1 : v < l
    · have h2 : v < l + 1 := by omega
      have h3 : ¬ v = l := by omega
      simp [h1, h2, h3]
      all_goals omega
    · by_cases h3 : v = l
      · subst h3; simp; omega
      · have h2 : ¬ v < l + 1 := by omega
        simp [h1, h2, h3]

theorem countAbove_pred (vals : List Nat) (h : Nat) (hpos : 0 < h) :
    countAbove vals (h - 1) = countAbove vals h + vals.count h := by
  unfold countAbove
  induction vals with
  | nil => simp
  | cons v vs ih =>
    rw [List.countP_cons, List.countP_cons, List.count_cons, ih]
    by_cases h1 : h < v
    · have h2 : h - 1 < v := by omega
      have h3 : ¬ v = h := by omega
      simp [h1, h2, h3]
      all_goals omega
    · by_cases h3 : v = h
      · subst h3
        have h2 : v - 1 < v := by omega
        simp [h2]; omega
      · have h2 : ¬ h - 1 < v := by omega
        simp [h1, h2, h3]

theorem countBelow_zero (vals : List Nat) : countBelow vals 0 = 0 := by
  simp [countBelow]

theorem countAbove_top (vals : List Nat) (h : ∀ v ∈ vals, v ≤ 255) : countAbove vals 255 = 0 := by
  unfold countAbove
  rw [List.countP_eq_zero]
  intro v hv
  have := h v hv
  simp; omega

/-- The lower scan of `loHi` on the histogram of `vals`, entered with `acc`
equal to the number of values below `lo`: it stops at the first level from `lo`
on below which at least `clipCnt` values lie, and at `255` at the latest. -/
theorem loScan_spec (hist vals : List Nat) (clipCnt : Int)
    (hh : ∀ v, v < 256 → hist.getD v 0 = vals.count v) (fuel lo : Nat) (acc : Int)
    (hacc : acc = (countBelow vals lo : Int)) (hfuel : 255 ≤ lo + fuel) (hlo : lo ≤ 255) :
    lo ≤ loScan hist clipCnt fuel lo acc ∧
    loScan hist clipCnt fuel lo acc ≤ 255 ∧
    (∀ l, lo ≤ l → l < loScan hist clipCnt fuel lo acc → (countBelow vals l : Int) < clipCnt) ∧
    (loScan hist clipCnt fuel lo acc = 255 ∨
      clipCnt ≤ (countBelow vals (loScan hist clipCnt fuel lo acc) : Int)) := by
  induction fuel generalizing lo acc with
  | zero =>
    have : lo = 255 := by omega
    subst this
    simp [loScan]
    intro l h1 h2; omega
  | succ n ih =>
    rw [loScan]
    by_cases hc : acc < clipCnt ∧ lo < 255
    · rw [if_pos hc]
      have hacc' : acc + (hist.getD lo 0 : Nat) = (countBelow vals (lo + 1) : Int) := by
        rw [countBelow_succ, hh lo (by omega), hacc]; push_cast; rfl
      obtain ⟨i1, i2, i3, i4⟩ := ih (lo + 1) _ hacc' (by omega) (by omega)
      refine ⟨by omega, i2, ?_, i4⟩
      intro l h1 h2
      by_cases hl : l = lo
      · subst hl; rw [← hacc]; exact hc.1
      · exact i3 l (by omega) h2
    · rw [if_neg hc]
      refine ⟨le_refl _, hlo, fun l h1 h2 => by omega, ?_⟩
      by_cases h255 : lo < 255
      · right
        have : ¬ acc < clipCnt := fun h => hc ⟨h, h255⟩
        rw [← hacc]; omega
      · left; omega

/-- The upper scan of `loHi` on the histogram of `vals`, entered with `acc`
equal to the number of values above `hi`: it stops at the first level from `hi`
down above which at least `clipCnt` values lie, and at `0` at the latest. -/
theorem hiScan_spec (hist vals : List Nat) (clipCnt : Int)
    (hh : ∀ v, v < 256 → hist.getD v 0 = vals.count v) (fuel hi : Nat) (acc : Int)
    (hacc : acc = (countAbove vals hi : Int)) (hfuel : hi ≤ fuel) (hhi : hi ≤ 255) :
    hiScan hist clipCnt fuel hi acc ≤ hi ∧
    (∀ h, hiScan hist clipCnt fuel hi acc < h → h ≤ hi → (countAbove vals h : Int) < clipCnt) ∧
    (hiScan hist clipCnt fuel hi acc = 0 ∨
      clipCnt ≤ (countAbove vals (hiScan hist clipCnt fuel hi acc) : Int)) := by
  induction fuel generalizing hi acc with
  | zero =>
    have : hi = 0 := by omega
    subst this
    simp [hiScan]
    intro h h1 h2; omega
  | succ n ih =>
    rw [hiScan]
    by_cases hc : acc < clipCnt ∧ 0 < hi
    · rw [if_pos hc]
      have hacc' : acc + (hist.getD hi 0 : Nat) = (countAbove vals (hi - 1) : Int) := by
        rw [countAbove_pred vals hi hc.2, hh hi (by omega), hacc]; push_cast; rfl
      obtain ⟨i1, i3, i4⟩ := ih (hi - 1) _ hacc' (by omega) (by omega)
      refine ⟨by omega, ?_, i4⟩
      intro h h1 h2
      by_cases hl : h = hi
      · subst hl; rw [← hacc]; exact hc.1
      · exact i3 h h1 (by omega)
    · rw [if_neg hc]
      refine ⟨le_refl _, fun h h1 h2 => by omega, ?_⟩
      by_cases h0 : 0 < hi
      · right
        have : ¬ acc < clipCnt := fun h => hc ⟨h, h0⟩
        rw [← hacc]; omega
      · left; omega

theorem channelValues_le (img : ImageData) (hwf : img.WF) (c : Nat) :
    ∀ v ∈ channelValues img c, v ≤ 255 := by
  intro v hv
  unfold channelValues at hv
  rw [List.mem_map] at hv
  obtain ⟨p, _, rfl⟩ := hv
  exact getD_le_of_forall _ hwf.2 _

/-- C13: for a colour channel `c` of a well-formed `w × h` image and any clip
fraction, with `budget = floor (w * h * clip)`, the bounds `(lo, hi)` chosen by
`loHi` meet the budget from each end.  `lo` is the smallest level such that at
least `budget` pixels have a value strictly below it, capped at 255: no level
below `lo` meets the budget, and `lo` meets it unless it is 255.  `hi` is the
largest level such that at least `budget` pixels have a value strictly above
it, capped at 0: no level above `hi` meets the budget, and `hi` meets it unless
it is 0.  And when `hi ≤ lo`, `autoLevels` leaves every byte of the channel
unchanged. -/
theorem loHi_meets_budget (img : ImageData) (clip : ℚ) (hwf : img.WF) (c : Nat) (hc : c < 3) :
    clipCount img clip = ⌊(img.width : ℚ) * (img.height : ℚ) * clip⌋ ∧
    (channelBounds img clip c).1 ≤ 255 ∧
    (∀ l, l < (channelBounds img clip c).1 →
      (countBelow (channelValues img c) l : Int) < clipCount img clip) ∧
    ((channelBounds img clip c).1 = 255 ∨
      clipCount img clip ≤ (countBelow (channelValues img c) (channelBounds img clip c).1 : Int)) ∧
    (channelBounds img clip c).2 ≤ 255 ∧
    (∀ h, (channelBounds img clip c).2 < h → h ≤ 255 →
      (countAbove (channelValues img c) h : Int) < clipCount img clip) ∧
    ((channelBounds img clip c).2 = 0 ∨
      clipCount img clip ≤ (countAbove (channelValues img c) (channelBounds img clip c).2 : Int)) ∧
    ((channelBounds img clip c).2 ≤ (channelBounds img clip c).1 →
      ∀ p, p < img.width * img.height →
        (autoLevels img clip).data.getD (4 * p + c) 0 = img.data.getD (4 * p + c) 0) := by
  have key : ∀ hist : List Nat,
      (∀ v, v < 256 → hist.getD v 0 = (channelValues img c).count v) →
      (loHi hist (clipCount img clip)).1 ≤ 255 ∧
      (∀ l, l < (loHi hist (clipCount img clip)).1 →
        (countBelow (channelValues img c) l : Int) < clipCount img clip) ∧
      ((loHi hist (clipCount img clip)).1 = 255 ∨
        clipCount img clip ≤
          (countBelow (channelValues img c) (loHi hist (clipCount img clip)).1 : Int)) ∧
      (loHi hist (clipCount img clip)).2 ≤ 255 ∧
      (∀ h, (loHi hist (clipCount img clip)).2 < h → h ≤ 255 →
        (countAbove (channelValues img c) h : Int) < clipCount img clip) ∧
      ((loHi hist (clipCount img clip)).2 = 0 ∨
        clipCount img clip ≤
          (countAbove (channelValues img c) (loHi hist (clipCount img clip)).2 : Int)) := by
    intro hist hh
    have hlo := loScan_spec hist (channelValues img c) (clipCount img clip) hh 255 0 0
      (by rw [countBelow_zero]; rfl) (by omega) (by omega)
    have hhi := hiScan_spec hist (channelValues img c) (clipCount img clip) hh 255 255 0
      (by rw [countAbove_top _ (channelValues_le img hwf c)]; rfl) (le_refl _) (le_refl _)
    unfold loHi
    exact ⟨hlo.2.1, fun l hl => hlo.2.2.1 l (Nat.zero_le _) hl, hlo.2.2.2, hhi.1, hhi.2.1,
      hhi.2.2⟩
  have hb : (channelBounds img clip c).1 ≤ 255 ∧
      (∀ l, l < (channelBounds img clip c).1 →
        (countBelow (channelValues img c) l : Int) < clipCount img clip) ∧
      ((channelBounds img clip c).1 = 255 ∨
        clipCount img clip ≤
          (countBelow (channelValues img c) (channelBounds img clip c).1 : Int)) ∧
      (channelBounds img clip c).2 ≤ 255 ∧
      (∀ h, (channelBounds img clip c).2 < h → h ≤ 255 →
        (countAbove (channelValues img c) h : Int) < clipCount img clip) ∧
      ((channelBounds img clip c).2 = 0 ∨
        clipCount img clip ≤
          (countAbove (channelValues img c) (channelBounds img clip c).2 : Int)) := by
    have hm : c = 0 ∨ c = 1 ∨ c = 2 := by omega
    rcases hm with hm | hm | hm <;> subst hm
    · exact key (histograms img.data).1 (fun v hv => (histograms_count img hwf v hv).1)
    · exact key (histograms img.data).2.1 (fun v hv => (histograms_count img hwf v hv).2.1)
    · exact key (histograms img.data).2.2 (fun v hv => (histograms_count img hwf v hv).2.2)
  refine ⟨rfl, hb.1, hb.2.1, hb.2.2.1, hb.2.2.2.1, hb.2.2.2.2.1, hb.2.2.2.2.2, ?_⟩
  intro hle p hp
  rw [getD_autoLevels img clip hwf p c hp (by omega), if_pos hc]
  unfold stretch
  rw [if_pos hle]
  exact storeByte_natCast _ (getD_le_of_forall _ hwf.2 _)

/-- C13 on the red channel of a 2×1 image with red bytes 10 and 200 and a clip
fraction of one half (budget 1). -/
theorem loHi_meets_budget_witness :
    (channelBounds ⟨2, 1, [10, 0, 0, 255, 200, 255, 255, 255]⟩ (1 / 2) 0).1 ≤ 255 ∧
    ((channelBounds ⟨2, 1, [10, 0, 0, 255, 200, 255, 255, 255]⟩ (1 / 2) 0).1 = 255 ∨
      clipCount ⟨2, 1, [10, 0, 0, 255, 200, 255, 255, 255]⟩ (1 / 2) ≤
        (countBelow (channelValues ⟨2, 1, [10, 0, 0, 255, 200, 255, 255, 255]⟩ 0)
          (channelBounds ⟨2, 1, [10, 0, 0, 255, 200, 255, 255, 255]⟩ (1 / 2) 0).1 : Int)) ∧
    ((channelBounds ⟨2, 1, [10, 0, 0, 255, 200, 255, 255, 255]⟩ (1 / 2) 0).2 = 0 ∨
      clipCount ⟨2, 1, [10, 0, 0, 255, 200, 255, 255, 255]⟩ (1 / 2) ≤
        (countAbove (channelValues ⟨2, 1, [10, 0, 0, 255, 200, 255, 255, 255]⟩ 0)
          (channelBounds ⟨2, 1, [10, 0, 0, 255, 200, 255, 255, 255]⟩ (1 / 2) 0).2 : Int)) :=
  have h := loHi_meets_budget ⟨2, 1, [10, 0, 0, 255, 200, 255, 255, 255]⟩ (1 / 2) (by decide) 0
    (by decide)
  ⟨h.2.1, h.2.2.2.1, h.2.2.2.2.2.2.1⟩

/-! ## Edge scan -/

/-- The coverage of one trial displacement is a fraction `hit / tot` with
`hit ≤ tot`, or `0`. -/
theorem sideCoverage_bounds (img : ImageData) (W H : Int) (outPos inPos : Int → Int × Int)
    (scanLen step : Int) :
    0 ≤ sideCoverage img W H outPos inPos scanLen step ∧
    sideCoverage img W H outPos inPos scanLen step ≤ 1 := by
  unfold sideCoverage
  simp only []
  generalize hc : List.foldl _ ((0 : Nat), (0 : Nat)) (strideValues 0 scanLen step) = c
  have hle : c.1 ≤ c.2 := by
    rw [← hc]
    refine @foldl_keeps Int (Nat × Nat) (fun acc => acc.1 ≤ acc.2) _ _ ?_ _ (le_refl _)
    intro acc t _ hacc
    split
    · split
      · show acc.1 + 1 ≤ acc.2 + 1
        omega
      · show acc.1 ≤ acc.2 + 1
        omega
    · exact hacc
  by_cases h0 : c.2 = 0
  · rw [if_pos h0]; exact ⟨le_refl _, zero_le_one⟩
  · rw [if_neg h0]
    have hpos : (0 : ℚ) < (c.2 : ℚ) := by
      have : 0 < c.2 := Nat.pos_of_ne_zero h0
      exact_mod_cast this
    constructor
    · positivity
    · rw [div_le_one hpos]; exact_mod_cast hle

/-- The running best of `scanSide` over a list of displacements with coverages
`f`: it never decreases, it dominates every coverage seen, and it is either the
initial one or the coverage of one of the displacements, kept with it. -/
theorem scan_fold (f : Int → ℚ) (ds : List Int) (b0 : SideScan) :
    b0.cov ≤ (ds.foldl (fun best d => if best.cov < f d then { cov := f d, d := d } else best)
      b0).cov ∧
    (∀ d ∈ ds, f d ≤
      (ds.foldl (fun best d => if best.cov < f d then { cov := f d, d := d } else best)
        b0).cov) ∧
    ((ds.foldl (fun best d => if best.cov < f d then { cov := f d, d := d } else best) b0) = b0 ∨
      ∃ d ∈ ds,
        (ds.foldl (fun best d => if best.cov < f d then { cov := f d, d := d } else best)
          b0).cov = f d ∧
        (ds.foldl (fun best d => if best.cov < f d then { cov := f d, d := d } else best)
          b0).d = d) := by
  induction ds generalizing b0 with
  | nil => simp
  | cons d ds ih =>
    rw [List.foldl_cons]
    by_cases hlt : b0.cov < f d
    · rw [if_pos hlt]
      obtain ⟨i1, i2, i3⟩ := ih { cov := f d, d := d }
      refine ⟨le_trans hlt.le i1, ?_, ?_⟩
      · intro e he
        rcases List.mem_cons.mp he with he | he
        · subst he; exact i1
        · exact i2 e he
      · right
        rcases i3 with i3 | ⟨e, he, h1, h2⟩
        · exact ⟨d, List.mem_cons_self _ _, by rw [i3], by rw [i3]⟩
        · exact ⟨e, List.mem_cons_of_mem _ he, h1, h2⟩
    · rw [if_neg hlt]
      obtain ⟨i1, i2, i3⟩ := ih b0
      refine ⟨i1, ?_, ?_⟩
      · intro e he
        rcases List.mem_cons.mp he with he | he
        · subst he; exact le_trans (not_lt.mp hlt) i1
        · exact i2 e he
      · rcases i3 with i3 | ⟨e, he, h1, h2⟩
        · left; exact i3
        · right; exact ⟨e, List.mem_cons_of_mem _ he, h1, h2⟩

/-- The trial displacements of `scanSide` lie within `tolPx` of zero. -/
theorem trial_displacement_bound (tolPx scanStep d : Int) (hstep : 0 < scanStep)
    (hd : d ∈ strideValues (-tolPx) (2 * tolPx + 1) scanStep) : -tolPx ≤ d ∧ d ≤ tolPx := by
  obtain ⟨k, hk, hlt⟩ := (mem_strideValues _ _ _ _ hstep).mp hd
  have : 0 ≤ (k : Int) * scanStep := by positivity
  omega

/-- What `scanSide` returns: a coverage in `[0, 1]` that is the maximum of the
coverages of the trial displacements, and a displacement within `tolPx` of
zero. -/
theorem scanSide_props (img : ImageData) (W H tolPx scanStep : Int)
    (getOutIn : Int → (Int → Int × Int) × (Int → Int × Int)) (scanLen step : Int)
    (htol : 0 ≤ tolPx) (hstep : 0 < scanStep) :
    0 ≤ (scanSide img W H tolPx scanStep getOutIn scanLen step).cov ∧
    (scanSide img W H tolPx scanStep getOutIn scanLen step).cov ≤ 1 ∧
    |(scanSide img W H tolPx scanStep getOutIn scanLen step).d| ≤ tolPx ∧
    (∀ d ∈ strideValues (-tolPx) (2 * tolPx + 1) scanStep,
      sideCoverage img W H (getOutIn d).1 (getOutIn d).2 scanLen step ≤
        (scanSide img W H tolPx scanStep getOutIn scanLen step).cov) ∧
    (∃ d ∈ strideValues (-tolPx) (2 * tolPx + 1) scanStep,
      (scanSide img W H tolPx scanStep getOutIn scanLen step).cov =
        sideCoverage img W H (getOutIn d).1 (getOutIn d).2 scanLen step) := by
  obtain ⟨h1, h2, h3⟩ := scan_fold
    (fun d => sideCoverage img W H (getOutIn d).1 (getOutIn d).2 scanLen step)
    (strideValues (-tolPx) (2 * tolPx + 1) scanStep) { cov := 0, d := 0 }
  have hne := strideValues_ne_nil (-tolPx) (2 * tolPx + 1) scanStep (by omega) hstep
  obtain ⟨d0, hd0⟩ := List.exists_mem_of_ne_nil _ hne
  change (0 : ℚ) ≤ (scanSide img W H tolPx scanStep getOutIn scanLen step).cov at h1
  change ∀ d ∈ strideValues (-tolPx) (2 * tolPx + 1) scanStep,
    sideCoverage img W H (getOutIn d).1 (getOutIn d).2 scanLen step ≤
      (scanSide img W H tolPx scanStep getOutIn scanLen step).cov at h2
  change (scanSide img W H tolPx scanStep getOutIn scanLen step = { cov := 0, d := 0 } ∨
    ∃ d ∈ strideValues (-tolPx) (2 * tolPx + 1) scanStep,
      (scanSide img W H tolPx scanStep getOutIn scanLen step).cov =
        sideCoverage img W H (getOutIn d).1 (getOutIn d).2 scanLen step ∧
      (scanSide img W H tolPx scanStep getOutIn scanLen step).d = d) at h3
  refine ⟨h1, ?_, ?_, h2, ?_⟩
  · rcases h3 with h3 | ⟨d, _, hc, _⟩
    · rw [h3]; exact zero_le_one
    · rw [hc]; exact (sideCoverage_bounds _ _ _ _ _ _ _).2
  · rcases h3 with h3 | ⟨d, hd, _, hdd⟩
    · rw [h3]; simpa using htol
    · rw [hdd, abs_le]
      exact trial_displacement_bound tolPx scanStep d hstep hd
  · rcases h3 with h3 | ⟨d, hd, hc, _⟩
    · refine ⟨d0, hd0, ?_⟩
      have hle := h2 d0 hd0
      rw [h3] at hle ⊢
      exact le_antisymm (sideCoverage_bounds _ _ _ _ _ _ _).1 hle
    · exact ⟨d, hd, hc⟩

/-- C14: every call of `scanSide` with `tolPx ≥ 0` and a positive `scanStep`
returns a coverage in `[0, 1]` that is the maximum of the coverages of the trial
displacements and a displacement `d` with `|d| ≤ tolPx`.  So for every frame and
every region of interest the four results of a tick have coverages in `[0, 1]`
and displacements within `tolPx`, the four displacement conditions of `okAlign`
hold, and `okAlign` is true exactly when the four coverages are at least
`SIDE_COVER_MIN = 0.6`. -/
theorem scanSide_max_coverage :
    (∀ (img : ImageData) (W H tolPx scanStep : Int)
        (getOutIn : Int → (Int → Int × Int) × (Int → Int × Int)) (scanLen step : Int),
      0 ≤ tolPx → 0 < scanStep →
      0 ≤ (scanSide img W H tolPx scanStep getOutIn scanLen step).cov ∧
      (scanSide img W H tolPx scanStep getOutIn scanLen step).cov ≤ 1 ∧
      |(scanSide img W H tolPx scanStep getOutIn scanLen step).d| ≤ tolPx ∧
      (∀ d ∈ strideValues (-tolPx) (2 * tolPx + 1) scanStep,
        sideCoverage img W H (getOutIn d).1 (getOutIn d).2 scanLen step ≤
          (scanSide img W H tolPx scanStep getOutIn scanLen step).cov) ∧
      (∃ d ∈ strideValues (-tolPx) (2 * tolPx + 1) scanStep,
        (scanSide img W H tolPx scanStep getOutIn scanLen step).cov =
          sideCoverage img W H (getOutIn d).1 (getOutIn d).2 scanLen step)) ∧
    (∀ env : TickEnv,
      (0 ≤ (scanSides env).1.cov ∧ (scanSides env).1.cov ≤ 1 ∧
        |(scanSides env).1.d| ≤ (scanSides env).2.2.2.2) ∧
      (0 ≤ (scanSides env).2.1.cov ∧ (scanSides env).2.1.cov ≤ 1 ∧
        |(scanSides env).2.1.d| ≤ (scanSides env).2.2.2.2) ∧
      (0 ≤ (scanSides env).2.2.1.cov ∧ (scanSides env).2.2.1.cov ≤ 1 ∧
        |(scanSides env).2.2.1.d| ≤ (scanSides env).2.2.2.2) ∧
      (0 ≤ (scanSides env).2.2.2.1.cov ∧ (scanSides env).2.2.2.1.cov ≤ 1 ∧
        |(scanSides env).2.2.2.1.d| ≤ (scanSides env).2.2.2.2) ∧
      (okAlign env = true ↔
        SIDE_COVER_MIN ≤ (scanSides env).1.cov ∧ SIDE_COVER_MIN ≤ (scanSides env).2.1.cov ∧
        SIDE_COVER_MIN ≤ (scanSides env).2.2.1.cov ∧
        SIDE_COVER_MIN ≤ (scanSides env).2.2.2.1.cov)) ∧
    SIDE_COVER_MIN = 6 / 10 := by
  refine ⟨fun img W H tolPx scanStep getOutIn scanLen step htol hstep =>
    scanSide_props img W H tolPx scanStep getOutIn scanLen step htol hstep, ?_, rfl⟩
  intro env
  have side : ∀ (getOutIn : Int → (Int → Int × Int) × (Int → Int × Int)) (scanLen step : Int),
      0 ≤ (scanSide (workImage env) (workSize env).1 (workSize env).2 (scanSides env).2.2.2.2
        (max 1 (jsRound (((scanSides env).2.2.2.2 : ℚ) / 10))) getOutIn scanLen step).cov ∧
      (scanSide (workImage env) (workSize env).1 (workSize env).2 (scanSides env).2.2.2.2
        (max 1 (jsRound (((scanSides env).2.2.2.2 : ℚ) / 10))) getOutIn scanLen step).cov ≤ 1 ∧
      |(scanSide (workImage env) (workSize env).1 (workSize env).2 (scanSides env).2.2.2.2
        (max 1 (jsRound (((scanSides env).2.2.2.2 : ℚ) / 10))) getOutIn scanLen step).d|
        ≤ (scanSides env).2.2.2.2 := by
    intro getOutIn scanLen step
    have htol : (0 : Int) ≤ (scanSides env).2.2.2.2 := by
      show (0 : Int) ≤ max 2 _
      exact le_trans (by decide) (le_max_left _ _)
    have hstep : (0 : Int) < max 1 (jsRound (((scanSides env).2.2.2.2 : ℚ) / 10)) :=
      lt_of_lt_of_le (by decide) (le_max_left _ _)
    have h := scanSide_props (workImage env) (workSize env).1 (workSize env).2
      (scanSides env).2.2.2.2 _ getOutIn scanLen step htol hstep
    exact ⟨h.1, h.2.1, h.2.2.1⟩
  have htop := side
    (fun d => (fun t => ((roi env).1 + t, ((roi env).2.1 + d) -
        max 2 (jsRound ((min (roi env).2.2.1 (roi env).2.2.2 : Int) * (12 / 1000 : ℚ)))),
      fun t => ((roi env).1 + t, ((roi env).2.1 + d) +
        max 2 (jsRound ((min (roi env).2.2.1 (roi env).2.2.2 : Int) * (12 / 1000 : ℚ))))))
    (roi env).2.2.1 (max 1 (jsRound (((roi env).2.2.1 : ℚ) / 180)))
  have hbot := side
    (fun d => (fun t => ((roi env).1 + t, ((roi env).2.1 + (roi env).2.2.2 + d) +
        max 2 (jsRound ((min (roi env).2.2.1 (roi env).2.2.2 : Int) * (12 / 1000 : ℚ)))),
      fun t => ((roi env).1 + t, ((roi env).2.1 + (roi env).2.2.2 + d) -
        max 2 (jsRound ((min (roi env).2.2.1 (roi env).2.2.2 : Int) * (12 / 1000 : ℚ))))))
    (roi env).2.2.1 (max 1 (jsRound (((roi env).2.2.1 : ℚ) / 180)))
  have hlft := side
    (fun d => (fun t => (((roi env).1 + d) -
        max 2 (jsRound ((min (roi env).2.2.1 (roi env).2.2.2 : Int) * (12 / 1000 : ℚ))),
        (roi env).2.1 + t),
      fun t => (((roi env).1 + d) +
        max 2 (jsRound ((min (roi env).2.2.1 (roi env).2.2.2 : Int) * (12 / 1000 : ℚ))),
        (roi env).2.1 + t)))
    (roi env).2.2.2 (max 1 (jsRound (((roi env).2.2.2 : ℚ) / 140)))
  have hrgt := side
    (fun d => (fun t => (((roi env).1 + (roi env).2.2.1 + d) +
        max 2 (jsRound ((min (roi env).2.2.1 (roi env).2.2.2 : Int) * (12 / 1000 : ℚ))),
        (roi env).2.1 + t),
      fun t => (((roi env).1 + (roi env).2.2.1 + d) -
        max 2 (jsRound ((min (roi env).2.2.1 (roi env).2.2.2 : Int) * (12 / 1000 : ℚ))),
        (roi env).2.1 + t)))
    (roi env).2.2.2 (max 1 (jsRound (((roi env).2.2.2 : ℚ) / 140)))
  change (0 ≤ (scanSides env).1.cov ∧ (scanSides env).1.cov ≤ 1 ∧
    |(scanSides env).1.d| ≤ (scanSides env).2.2.2.2) at htop
  change (0 ≤ (scanSides env).2.1.cov ∧ (scanSides env).2.1.cov ≤ 1 ∧
    |(scanSides env).2.1.d| ≤ (scanSides env).2.2.2.2) at hbot
  change (0 ≤ (scanSides env).2.2.1.cov ∧ (scanSides env).2.2.1.cov ≤ 1 ∧
    |(scanSides env).2.2.1.d| ≤ (scanSides env).2.2.2.2) at hlft
  change (0 ≤ (scanSides env).2.2.2.1.cov ∧ (scanSides env).2.2.2.1.cov ≤ 1 ∧
    |(scanSides env).2.2.2.1.d| ≤ (scanSides env).2.2.2.2) at hrgt
  refine ⟨htop, hbot, hlft, hrgt, ?_⟩
  unfold okAlign
  simp only [Bool.and_eq_true, decide_eq_true_eq]
  constructor
  · rintro ⟨⟨⟨⟨⟨⟨⟨c1, c2⟩, c3⟩, c4⟩, _⟩, _⟩, _⟩, _⟩
    exact ⟨c1, c2, c3, c4⟩
  · rintro ⟨c1, c2, c3, c4⟩
    exact ⟨⟨⟨⟨⟨⟨⟨c1, c2⟩, c3⟩, c4⟩, htop.2.2⟩, hbot.2.2⟩, hlft.2.2⟩, hrgt.2.2⟩

/-- C14 for a scan along the top side of a 2×2 region at (1, 1) of a uniform
4×4 image, with `tolPx = 2` and `scanStep = 1`. -/
theorem scanSide_max_coverage_witness :
    (scanSide ⟨4, 4, List.replicate 64 7⟩ 4 4 2 1
      (fun d => (fun t => (1 + t, (1 + d) - 2), fun t => (1 + t, (1 + d) + 2))) 2 1).cov ≤ 1 ∧
    |(scanSide ⟨4, 4, List.replicate 64 7⟩ 4 4 2 1
      (fun d => (fun t => (1 + t, (1 + d) - 2), fun t => (1 + t, (1 + d) + 2))) 2 1).d| ≤ 2 :=
  have h := scanSide_max_coverage.1 ⟨4, 4, List.replicate 64 7⟩ 4 4 2 1
    (fun d => (fun t => (1 + t, (1 + d) - 2), fun t => (1 + t, (1 + d) + 2))) 2 1
    (by decide) (by decide)
  ⟨h.2.1, h.2.2.1⟩

/-! ## Validation pattern -/

theorem isDigit_iff (c : Char) : c.isDigit = true ↔ 48 ≤ c.toNat ∧ c.toNat ≤ 57 := by
  unfold Char.isDigit Char.toNat
  simp only [Bool.and_eq_true, decide_eq_true_eq, ge_iff_le]
  rw [UInt32.le_def, UInt32.le_def]
  rfl

theorem eatDigits_eq_some (n : Nat) (cs rest : List Char) :
    eatDigits n cs = some rest ↔
      ∃ ds : List Char, cs = ds ++ rest ∧ ds.length = n ∧
        ∀ c ∈ ds, 48 ≤ c.toNat ∧ c.toNat ≤ 57 := by
  induction n generalizing cs with
  | zero =>
    simp only [eatDigits, Option.some.injEq]
    constructor
    · intro h; exact ⟨[], by simp [h], rfl, by simp⟩
    · rintro ⟨ds, h1, h2, _⟩
      have : ds = [] := List.length_eq_zero.mp h2
      subst this; simpa using h1
  | succ n ih =>
    cases cs with
    | nil =>
      simp only [eatDigits]
      constructor
      · intro h; cases h
      · rintro ⟨ds, h1, h2, _⟩
        have : ds = [] := by
          cases ds with
          | nil => rfl
          | cons d ds => simp at h1
        subst this; simp at h2
    | cons c cs =>
      simp only [eatDigits]
      by_cases hd : c.isDigit = true
      · rw [if_pos hd, ih]
        constructor
        · rintro ⟨ds, h1, h2, h3⟩
          refine ⟨c :: ds, by simp [h1], by simp [h2], ?_⟩
          intro e he
          rcases List.mem_cons.mp he with he | he
          · subst he; exact (isDigit_iff _).mp hd
          · exact h3 e he
        · rintro ⟨ds, h1, h2, h3⟩
          cases ds with
          | nil => simp at h2
          | cons d ds =>
            simp only [List.cons_append, List.cons.injEq] at h1
            refine ⟨ds, h1.2, by simpa using h2, ?_⟩
            intro e he
            exact h3 e (List.mem_cons_of_mem _ he)
      · rw [if_neg hd]
        constructor
        · intro h; cases h
        · rintro ⟨ds, h1, h2, h3⟩
          cases ds with
          | nil => simp at h2
          | cons d ds =>
            simp only [List.cons_append, List.cons.injEq] at h1
            have := h3 d (List.mem_cons_self _ _)
            rw [← h1.1] at this
            exact absurd ((isDigit_iff _).mpr this) hd

theorem eatChar_eq_some (ch : Char) (cs rest : List Char) :
    eatChar ch cs = some rest ↔ cs = ch :: rest := by
  cases cs with
  | nil => simp [eatChar]
  | cons c cs =>
    simp only [eatChar]
    by_cases h : c = ch
    · subst h; simp
    · simp [h]

/-- The pattern matches at the start of the input exactly when the input starts
with six ASCII digits, a hyphen and seven ASCII digits. -/
theorem matchHere_iff (cs : List Char) :
    matchHere cs = true ↔ ∃ w rest : List Char, cs = w ++ rest ∧ IsJuminNumber w := by
  unfold matchHere IsJuminNumber
  rw [Option.isSome_iff_exists]
  constructor
  · rintro ⟨r, hr⟩
    rw [Option.bind_eq_some] at hr
    obtain ⟨r2, hr2, hr3⟩ := hr
    rw [Option.bind_eq_some] at hr2
    obtain ⟨r1, hr1, hr12⟩ := hr2
    obtain ⟨ds1, e1, l1, d1⟩ := (eatDigits_eq_some _ _ _).mp hr1
    have e2 := (eatChar_eq_some _ _ _).mp hr12
    obtain ⟨ds2, e3, l2, d2⟩ := (eatDigits_eq_some _ _ _).mp hr3
    refine ⟨ds1 ++ '-' :: ds2, r, ?_, ds1, ds2, rfl, l1, l2, d1, d2⟩
    rw [e1, e2, e3]; simp
  · rintro ⟨w, rest, hcs, ds1, ds2, hw, l1, l2, d1, d2⟩
    refine ⟨rest, ?_⟩
    rw [Option.bind_eq_some]
    refine ⟨ds2 ++ rest, ?_, (eatDigits_eq_some _ _ _).mpr ⟨ds2, rfl, l2, d2⟩⟩
    rw [Option.bind_eq_some]
    refine ⟨'-' :: (ds2 ++ rest), (eatDigits_eq_some _ _ _).mpr ⟨ds1, ?_, l1, d1⟩,
      (eatChar_eq_some _ _ _).mpr rfl⟩
    rw [hcs, hw]; simp

/-- The search tries every start position. -/
theorem matchAnywhere_iff (cs : List Char) :
    matchAnywhere cs = true ↔
      ∃ before rest : List Char, cs = before ++ rest ∧ matchHere rest = true := by
  induction cs with
  | nil =>
    simp only [matchAnywhere]
    constructor
    · intro h; exact ⟨[], [], rfl, h⟩
    · rintro ⟨b, r, h1, h2⟩
      have hb : b = [] ∧ r = [] := by
        cases b with
        | nil => exact ⟨rfl, by simpa using h1.symm⟩
        | cons x xs => simp at h1
      rw [hb.2] at h2; exact h2
  | cons c cs ih =>
    simp only [matchAnywhere, Bool.or_eq_true, ih]
    constructor
    · rintro (h | ⟨b, r, h1, h2⟩)
      · exact ⟨[], c :: cs, rfl, h⟩
      · exact ⟨c :: b, r, by simp [h1], h2⟩
    · rintro ⟨b, r, h1, h2⟩
      cases b with
      | nil =>
        left
        simp only [List.nil_append] at h1
        rw [h1]; exact h2
      | cons x xs =>
        right
        simp only [List.cons_append, List.cons.injEq] at h1
        exact ⟨xs, r, h1.2, h2⟩

theorem JUMIN_REGEX_iff (text : String) : JUMIN_REGEX text = true ↔ HasJuminSubstring text := by
  unfold JUMIN_REGEX HasJuminSubstring
  rw [matchAnywhere_iff]
  constructor
  · rintro ⟨b, r, h1, h2⟩
    obtain ⟨w, rest, h3, h4⟩ := (matchHere_iff r).mp h2
    exact ⟨b, w, rest, by rw [h1, h3]; simp, h4⟩
  · rintro ⟨b, w, a, h1, h2⟩
    exact ⟨b, w ++ a, by rw [h1]; simp, (matchHere_iff _).mpr ⟨w, a, rfl, h2⟩⟩

/-- C15: under the default pattern `/\d{6}-\d{7}/` a text passes exactly when
some contiguous substring of it is six ASCII digits, a hyphen, then seven ASCII
digits.  The match is not anchored: text before and after a passing text, further
digits included, leaves it passing, as for `1234567-12345678`. -/
theorem JUMIN_REGEX_unanchored (text : String) :
    (JUMIN_REGEX text = true ↔ HasJuminSubstring text) ∧
    (∀ before after : String,
      JUMIN_REGEX text = true → JUMIN_REGEX (before ++ text ++ after) = true) ∧
    JUMIN_REGEX "123456-1234567" = true ∧
    JUMIN_REGEX "1234567-12345678" = true ∧
    JUMIN_REGEX "12345-1234567" = false ∧
    JUMIN_REGEX "123456-123456" = false := by
  refine ⟨JUMIN_REGEX_iff text, ?_, by decide, by decide, by decide, by decide⟩
  intro before after h
  rw [JUMIN_REGEX_iff] at h ⊢
  obtain ⟨b, w, a, h1, h2⟩ := h
  refine ⟨before.toList ++ b, w, a ++ after.toList, ?_, h2⟩
  simp only [String.toList, String.data_append] at h1 ⊢
  rw [h1]
  simp only [List.append_assoc]

/-- C15 on `123456-1234567` with a character put before and after it. -/
theorem JUMIN_REGEX_unanchored_witness :
    JUMIN_REGEX ("x" ++ "123456-1234567" ++ "9") = true ∧ HasJuminSubstring "123456-1234567" :=
  ⟨(JUMIN_REGEX_unanchored "123456-1234567").2.1 "x" "9" (by decide),
    (JUMIN_REGEX_unanchored "123456-1234567").1.mp (by decide)⟩

end IdCardAutoCapture
